import Mathlib

/-!
# Stockfish 5 thread pool and split points, Maverick 0.5 evaluation

A shallow embedding of the sequential behaviour of `Stockfish 5/src_c++11/thread.cpp`
(namespace `Stockfish`) and of the evaluators of `Maverick 0.5/eval.cpp`
(namespace `Maverick`).

Memory model of the thread pool.
* A `Thread*` is the position of the thread object in the pool's arena: the
  world maps every position to a thread object (`World.threads`), and the
  vector `Threads` is the initial segment of length `World.size`.
* A `SplitPoint*` is an `SPRef`: the owning thread and the slot of its embedded
  `splitPoints` array.
* A `Position*` is an address into `World.positions`.

`thread.h`, `types.h`, `position.h`, `search.h` and `ucioption.h` are not among
the sources; the constants they define (`ONE_PLY`, `VALUE_INFINITE`,
`MAX_SPLITPOINTS_PER_THREAD`) and the UCI option values are parameters. The same
holds for `defs.h` and `data.h` of Maverick.
-/

namespace Stockfish

/-! ## Data model -/

/-- The type `Value`, an enumeration over `int` in the engine. -/
abbrev Value := Int

/-- The type `Depth`, an enumeration over `int` in the engine. -/
abbrev Depth := Int

/-- A move is an opaque code for this development. -/
abbrev Move := Nat

/-- Modelled from the spec: the type of `slavesMask` is declared in `thread.h`,
which is not among the sources. The spec calls it the "set of thread identifiers
currently working this split point"; `thread.cpp` assigns it `0` and uses `set`
and `test`, so it is modelled as a bit mask over the naturals. Its width
(`MAX_THREADS`) is not modelled: thread indices are taken to lie within it. -/
abbrev SlavesMask := Nat

/-- The call `mask.test(i)`. -/
def SlavesMask.test (mask : SlavesMask) (i : Nat) : Bool :=
  Nat.testBit mask i

/-- The call `mask.set(i)`. -/
def SlavesMask.set (mask : SlavesMask) (i : Nat) : SlavesMask :=
  mask ||| (1 <<< i)

/-- Address of a split point: slot `slot` of the `splitPoints` array of the
thread object at `owner`. -/
structure SPRef where
  owner : Nat
  slot : Int
  deriving DecidableEq, Repr

/-- The fields of `SplitPoint` that `thread.cpp` reads or writes. The two
mutexes are not state of the sequential model. -/
structure SplitPoint where
  pos : Nat := 0
  ss : Nat := 0
  masterThread : Nat := 0
  depth : Depth := 0
  beta : Value := 0
  nodeType : Int := 0
  cutNode : Bool := false
  movePicker : Nat := 0
  parentSplitPoint : Option SPRef := none
  slavesMask : SlavesMask := 0
  nodes : Nat := 0
  alpha : Value := 0
  bestValue : Value := 0
  bestMove : Move := 0
  moveCount : Int := 0
  cutoff : Bool := false
  allSlavesSearching : Bool := false
  deriving DecidableEq, Repr

/-- A worker thread (`ThreadBase` and `Thread` fields used by `thread.cpp`). -/
structure Thread where
  exit : Bool := false
  splitPoints : Int → SplitPoint := fun _ => {}
  maxPly : Int := 0
  activePosition : Option Nat := none
  idx : Nat := 0
  activeSplitPoint : Option SPRef := none
  splitPointsSize : Int := 0
  searching : Bool := false

/-- The timer thread. -/
structure TimerThread where
  exit : Bool := false
  run : Bool := false
  deriving DecidableEq, Repr

/-- Modelled from the spec: `Position` is declared in `position.h`, which is not
among the sources. Only its node counter is used here ("accumulated node count,
merged into the owning position's counter"); it is an unbounded natural. -/
structure Position where
  nodes : Nat := 0
  deriving DecidableEq, Repr

/-- A thread object that `delete_thread` has joined and destroyed. -/
inductive Joined where
  | timer (t : TimerThread)
  | worker (t : Thread)

/-- The global state touched by `thread.cpp`: the pool `Threads` (its vector is
`threads 0 .. threads (size - 1)`), its timer and `minimumSplitDepth`, the
position objects, and the log of the threads joined so far, oldest first. -/
structure World where
  threads : Nat → Thread := fun _ => {}
  size : Nat := 0
  timer : Option TimerThread := none
  minimumSplitDepth : Depth := 0
  positions : Nat → Position := fun _ => {}
  joined : List Joined := []

/-- Assignment through a `Thread*`. -/
def World.setThread (w : World) (p : Nat) (t : Thread) : World :=
  { w with threads := Function.update w.threads p t }

/-- Dereference of a `SplitPoint*`. -/
def World.sp (w : World) (r : SPRef) : SplitPoint :=
  (w.threads r.owner).splitPoints r.slot

/-- Assignment through a `SplitPoint*`. -/
def World.setSP (w : World) (r : SPRef) (s : SplitPoint) : World :=
  w.setThread r.owner
    { w.threads r.owner with
      splitPoints := Function.update (w.threads r.owner).splitPoints r.slot s }

/-! ## `Thread::cutoff_occurred` -/

/-- The loop of `cutoff_occurred`, started at `sp`; `fuel` bounds the number of
iterations and `none` is the answer of a run that needs more. -/
def cutoff_loop (w : World) : Nat → Option SPRef → Option Bool
  | _, none => some false
  | 0, some _ => none
  | fuel + 1, some r =>
    if (w.sp r).cutoff then some true
    else cutoff_loop w fuel (w.sp r).parentSplitPoint

/-- The member function `Thread::cutoff_occurred`, run on the thread `t`. -/
def Thread.cutoff_occurred (w : World) (fuel : Nat) (t : Thread) : Option Bool :=
  cutoff_loop w fuel t.activeSplitPoint

/-- The pointer reached after following `n` `parentSplitPoint` links from `p`
(`none` is the null pointer, which has no parent). -/
def nthAncestor (w : World) : Nat → Option SPRef → Option SPRef
  | 0, p => p
  | _ + 1, none => none
  | n + 1, some r => nthAncestor w n (w.sp r).parentSplitPoint

/-! ## `Thread::available_to` and `ThreadPool::available_slave` -/

/-- The member function `Thread::available_to`, run on the thread `t`. -/
def Thread.available_to (t master : Thread) : Bool :=
  if t.searching then false
  else
    let size := t.splitPointsSize
    size == 0 || (t.splitPoints (size - 1)).slavesMask.test master.idx

/-- The scan of `available_slave` over the pool positions `i, i+1, .., i+n-1`. -/
def available_slave_from (w : World) (master : Thread) : Nat → Nat → Option Nat
  | 0, _ => none
  | n + 1, i =>
    if (w.threads i).available_to master then some i
    else available_slave_from w master n (i + 1)

/-- The member function `ThreadPool::available_slave`: the first thread of the pool that is
available to `master`, or `none` for `nullptr`. -/
def World.available_slave (w : World) (master : Thread) : Option Nat :=
  available_slave_from w master w.size 0

/-! ## `Thread::split` -/

/-- The arguments of `split`; `bestValue` and `bestMove` are the values that the
two out-parameters point to when `split` is entered. -/
structure SplitArgs where
  pos : Nat := 0
  ss : Nat := 0
  alpha : Value := 0
  beta : Value := 0
  bestValue : Value := 0
  bestMove : Move := 0
  depth : Depth := 0
  moveCount : Int := 0
  movePicker : Nat := 0
  nodeType : Int := 0
  cutNode : Bool := false
  deriving DecidableEq, Repr

/-- The assertions at the head of `split` (that of `pos.pos_is_ok()` apart,
which belongs to the position module). -/
def split_asserts (VALUE_INFINITE : Value) (MAX_SPLITPOINTS_PER_THREAD : Int)
    (w : World) (self : Nat) (a : SplitArgs) : Prop :=
  (-VALUE_INFINITE < a.bestValue ∧ a.bestValue ≤ a.alpha ∧ a.alpha < a.beta
      ∧ a.beta ≤ VALUE_INFINITE)
    ∧ w.minimumSplitDepth ≤ a.depth
    ∧ (w.threads self).searching = true
    ∧ (w.threads self).splitPointsSize < MAX_SPLITPOINTS_PER_THREAD

instance (V : Value) (M : Int) (w : World) (self : Nat) (a : SplitArgs) :
    Decidable (split_asserts V M w self a) := by
  unfold split_asserts; infer_instance

/-- The split point that `split` works on: `splitPoints[splitPointsSize]` of the
calling thread, with `splitPointsSize` read at entry. -/
def split_slot (w : World) (self : Nat) : SPRef :=
  ⟨self, (w.threads self).splitPointsSize⟩

/-- Lines 262-279 of `split`: the split point is filled in. -/
def split_init (w : World) (self : Nat) (a : SplitArgs) : World :=
  let r := split_slot w self
  w.setSP r
    { w.sp r with
      masterThread := self
      parentSplitPoint := (w.threads self).activeSplitPoint
      slavesMask := SlavesMask.set 0 (w.threads self).idx
      depth := a.depth
      bestValue := a.bestValue
      bestMove := a.bestMove
      alpha := a.alpha
      beta := a.beta
      nodeType := a.nodeType
      cutNode := a.cutNode
      movePicker := a.movePicker
      moveCount := a.moveCount
      pos := a.pos
      nodes := 0
      cutoff := false
      ss := a.ss }

/-- Lines 287-290 of `split`, run with both locks held. -/
def split_setup (w : World) (self : Nat) (r : SPRef) : World :=
  let w1 := w.setSP r { w.sp r with allSlavesSearching := true }
  let w2 := w1.setThread self
    { w1.threads self with splitPointsSize := (w1.threads self).splitPointsSize + 1 }
  let w3 := w2.setThread self { w2.threads self with activeSplitPoint := some r }
  w3.setThread self { w3.threads self with activePosition := none }

/-- The body of the recruitment loop (lines 295-298) for the thread `slave`. -/
def recruit_step (w : World) (r : SPRef) (slave : Nat) : World :=
  let w1 := w.setSP r
    { w.sp r with slavesMask := (w.sp r).slavesMask.set (w.threads slave).idx }
  let w2 := w1.setThread slave { w1.threads slave with activeSplitPoint := some r }
  w2.setThread slave { w2.threads slave with searching := true }

/-- The recruitment loop of `split` (lines 293-299). It returns the final state
and the threads it has recruited (and notified), first recruited first; `fuel`
bounds the number of recruitments and `none` is the answer of a run that needs
more. -/
def recruit_loop (self : Nat) (r : SPRef) : Nat → World → Option (World × List Nat)
  | 0, w =>
    match w.available_slave (w.threads self) with
    | none => some (w, [])
    | some _ => none
  | fuel + 1, w =>
    match w.available_slave (w.threads self) with
    | none => some (w, [])
    | some slave =>
      match recruit_loop self r fuel (recruit_step w r slave) with
      | none => none
      | some (w1, slaves) => some (w1, slave :: slaves)

/-- Lines 292-299 of `split<Fake>`. The loop is given one unit of fuel for every
thread of the pool. -/
def split_recruit (Fake : Bool) (w : World) (self : Nat) (r : SPRef) :
    Option (World × List Nat) :=
  if Fake then some (w, []) else recruit_loop self r w.size w

/-- The state of `split<Fake>` when the master is about to enter its idle loop
(lines 262-306), with the threads recruited. -/
def split_enter (Fake : Bool) (w : World) (self : Nat) (a : SplitArgs) :
    Option (World × List Nat) :=
  split_recruit Fake (split_setup (split_init w self a) self (split_slot w self)) self
    (split_slot w self)

/-- What `split` gives back to its caller: the state and the values left in
the two out-parameters. -/
structure SplitResult where
  world : World
  bestValue : Value
  bestMove : Move

/-- Lines 322-328 of `split`, run after the idle loop with both locks held. -/
def split_finish (w : World) (self : Nat) (r : SPRef) (a : SplitArgs) : SplitResult :=
  let w1 := w.setThread self { w.threads self with searching := true }
  let w2 := w1.setThread self
    { w1.threads self with splitPointsSize := (w1.threads self).splitPointsSize - 1 }
  let w3 := w2.setThread self
    { w2.threads self with activeSplitPoint := (w2.sp r).parentSplitPoint }
  let w4 := w3.setThread self { w3.threads self with activePosition := some a.pos }
  let w5 : World :=
    { w4 with
      positions := Function.update w4.positions a.pos
        { w4.positions a.pos with nodes := (w4.positions a.pos).nodes + (w4.sp r).nodes } }
  { world := w5, bestMove := (w5.sp r).bestMove, bestValue := (w5.sp r).bestValue }

/-- The member function `Thread::split<Fake>`, called on the thread `self`. `Thread::idle_loop` is
defined in `search.cpp`, which is not among the sources: it is the parameter
`idle_loop`, applied to the calling thread. -/
def split (Fake : Bool) (idle_loop : Nat → World → World) (w : World) (self : Nat)
    (a : SplitArgs) : Option SplitResult :=
  match split_enter Fake w self a with
  | none => none
  | some (w1, _) => some (split_finish (idle_loop self w1) self (split_slot w self) a)

/-! ## `ThreadPool::read_uci_options` -/

/-- The helper `new_thread<Thread>()`: the constructor `Thread::Thread`, run while the pool
has `w.size` threads. The contents of the fresh `splitPoints` array are left
unspecified by the constructor; they are the default split point here. -/
def new_thread (w : World) : Thread :=
  { searching := false
    maxPly := 0
    splitPointsSize := 0
    activeSplitPoint := none
    activePosition := none
    idx := w.size }

/-- The call `push_back(th)` on the pool's vector. -/
def World.push_back (w : World) (t : Thread) : World :=
  { w with threads := Function.update w.threads w.size t, size := w.size + 1 }

/-- The call `pop_back()` on the pool's vector. -/
def World.pop_back (w : World) : World :=
  { w with size := w.size - 1 }

/-- The helper `delete_thread(th)` for a worker: the exit flag is set, the thread is woken,
joined and destroyed; the joined object is appended to the log. -/
def delete_thread (w : World) (th : Nat) : World :=
  let w1 := w.setThread th { w.threads th with exit := true }
  { w1 with joined := w1.joined ++ [Joined.worker (w1.threads th)] }

/-- The loop `while (size() < requested) push_back(new_thread<Thread>())`. -/
def grow_loop (requested : Nat) : Nat → World → Option World
  | 0, w => if w.size < requested then none else some w
  | fuel + 1, w =>
    if w.size < requested then grow_loop requested fuel (w.push_back (new_thread w))
    else some w

/-- The loop `while (size() > requested) { delete_thread(back()); pop_back(); }`. -/
def shrink_loop (requested : Nat) : Nat → World → Option World
  | 0, w => if w.size > requested then none else some w
  | fuel + 1, w =>
    if w.size > requested then
      shrink_loop requested fuel (delete_thread w (w.size - 1)).pop_back
    else some w

/-- The member function `ThreadPool::read_uci_options`, with the values of the options
"Min Split Depth" and "Threads" as parameters. Each loop is given
`w.size + requested` units of fuel; `none` is the answer of a run that needs
more. -/
def read_uci_options (ONE_PLY : Int) (optMinSplitDepth : Int) (requested : Nat)
    (w : World) : Option World :=
  let msd := optMinSplitDepth * ONE_PLY
  let w1 : World :=
    { w with
      minimumSplitDepth :=
        if msd = 0 then (if requested < 8 then 4 * ONE_PLY else 7 * ONE_PLY) else msd }
  match grow_loop requested (w.size + requested) w1 with
  | none => none
  | some w2 => shrink_loop requested (w.size + requested) w2

/-! ## `ThreadPool::exit` -/

/-- The helper `delete_thread(timer)`: the exit flag of the timer is set, the
timer is woken, joined and destroyed, and the joined object is appended to the
log. With a null `timer` the call has no defined behaviour: `none`. -/
def delete_timer (w : World) : Option World :=
  match w.timer with
  | none => none
  | some t =>
    some
      { w with
        timer := some { t with exit := true }
        joined := w.joined ++ [Joined.timer { t with exit := true }] }

/-- The loop `for (Thread* th : *this) delete_thread(th)` of `ThreadPool::exit`,
over the positions `0 .. size - 1` of the vector. -/
def exit_loop (w : World) : World :=
  (List.range w.size).foldl delete_thread w

/-- The member function `ThreadPool::exit`. -/
def World.exit (w : World) : Option World :=
  match delete_timer w with
  | none => none
  | some w1 => some (exit_loop w1)

/-! ## `ThreadPool::start_thinking` -/

/-- The main thread: a `Thread` with the flag `thinking`. -/
structure MainThread extends Thread where
  thinking : Bool := false

/-- The flags of `Search::Signals` that `thread.cpp` writes. -/
structure SignalsType where
  stopOnPonderhit : Bool := false
  firstRootMove : Bool := false
  stop : Bool := false
  failedLowAtRoot : Bool := false
  deriving DecidableEq, Repr

/-- The search limits: `searchmoves`, and the other limits (time, depth, nodes)
as one opaque value. -/
structure LimitsType where
  searchmoves : List Move := []
  others : Nat := 0
  deriving DecidableEq, Repr

/-- The class `RootMove` is declared in `search.h`, which is not among the
sources; a root move is represented by the move it is constructed from. -/
structure RootMove where
  move : Move
  deriving DecidableEq, Repr

/-- The globals of the namespace `Search` that `start_thinking` writes, and the
main thread of the pool. -/
structure SearchState where
  SearchTime : Nat := 0
  Signals : SignalsType := {}
  RootMoves : List RootMove := []
  RootPos : Position := {}
  Limits : LimitsType := {}
  SetupStates : Option Nat := none
  main : MainThread := {}

/-- The member function `ThreadPool::wait_for_think_finished`: the caller goes
on at once when the main thread is not thinking; otherwise it sleeps while the
search runs, and `search` gives the shared state that this search leaves. The
answer is `none` when the main thread is still thinking then. -/
def wait_for_think_finished (search : SearchState → SearchState) (s : SearchState) :
    Option SearchState :=
  if s.main.thinking = false then some s
  else if (search s).main.thinking = false then some (search s)
  else none

/-- The test of the loop of `start_thinking`: the move is kept when
`searchmoves` is empty or counts the move at least once. -/
def root_move_wanted (limits : LimitsType) (m : Move) : Bool :=
  limits.searchmoves.isEmpty || limits.searchmoves.count m != 0

/-- The member function `ThreadPool::start_thinking`. The parameters are the
legal move generator `MoveList<LEGAL>`, the value of `Time::now()` and the
running search (see `wait_for_think_finished`); `states` is the pointer the
caller passes, and the second component of the result is what it holds on
return. -/
def start_thinking (legal : Position → List Move) (now : Nat)
    (search : SearchState → SearchState) (s : SearchState) (pos : Position)
    (limits : LimitsType) (states : Option Nat) : Option (SearchState × Option Nat) :=
  match wait_for_think_finished search s with
  | none => none
  | some s1 =>
    let s2 : SearchState := { s1 with SearchTime := now }
    let s3 : SearchState := { s2 with Signals := { s2.Signals with firstRootMove := false } }
    let s4 : SearchState :=
      { s3 with Signals := { s3.Signals with stopOnPonderhit := s3.Signals.firstRootMove } }
    let s5 : SearchState := { s4 with Signals := { s4.Signals with failedLowAtRoot := false } }
    let s6 : SearchState :=
      { s5 with Signals := { s5.Signals with stop := s5.Signals.failedLowAtRoot } }
    let s7 : SearchState := { s6 with RootMoves := [] }
    let s8 : SearchState := { s7 with RootPos := pos }
    let s9 : SearchState := { s8 with Limits := limits }
    let s10 : SearchState :=
      match states with
      | some st => { s9 with SetupStates := some st }
      | none => s9
    let s11 : SearchState :=
      (legal pos).foldl
        (fun acc m =>
          if root_move_wanted limits m then
            { acc with RootMoves := acc.RootMoves ++ [RootMove.mk m] }
          else acc)
        s10
    some ({ s11 with main := { s11.main with thinking := true } }, none)

/-! ## Lock operations of `Thread::split` -/

/-- The mutexes that `split` touches: the one of the pool, the one of a split
point, and the one of a thread. -/
inductive Mutex where
  | pool
  | sp (r : SPRef)
  | thread (p : Nat)
  deriving DecidableEq, Repr

/-- A lock operation. -/
inductive LockOp where
  | lock (m : Mutex)
  | unlock (m : Mutex)
  deriving DecidableEq, Repr

/-- The lock operations of `notify_one()` on each recruited thread, in the order
of recruitment: the mutex of the thread is taken and released. -/
def notify_ops : List Nat → List LockOp
  | [] => []
  | s :: rest => LockOp.lock (Mutex.thread s) :: LockOp.unlock (Mutex.thread s) :: notify_ops rest

/-- The lock operations that `split<Fake>` itself performs, in program order:
lines 284-285, the notifications of the recruitment loop, lines 305-306, and,
after the idle loop, lines 319-320 and 330-331. The operations of
`Thread::idle_loop` (in `search.cpp`) are not part of it. -/
def split_lock_ops (Fake : Bool) (w : World) (self : Nat) (a : SplitArgs) :
    Option (List LockOp) :=
  match split_enter Fake w self a with
  | none => none
  | some (_, slaves) =>
    some
      ([LockOp.lock Mutex.pool, LockOp.lock (Mutex.sp (split_slot w self))]
        ++ notify_ops slaves
        ++ [LockOp.unlock (Mutex.sp (split_slot w self)), LockOp.unlock Mutex.pool]
        ++ [LockOp.lock Mutex.pool, LockOp.lock (Mutex.sp (split_slot w self)),
            LockOp.unlock (Mutex.sp (split_slot w self)), LockOp.unlock Mutex.pool])

/-! ## `MainThread::idle_loop` -/

/-- The program points of `MainThread::idle_loop`: the top of the outer loop
(line 149), the test of the inner loop (line 153), the wait (line 156), the
point after the inner loop (line 159), the call of `Search::think` (line 166),
the point after it (line 168), and the return (line 162). -/
inductive MainPC where
  | top
  | test
  | parked
  | woken
  | think
  | afterThink
  | returned
  deriving DecidableEq, Repr

/-- A configuration of the main thread in its idle loop. -/
structure MainCfg where
  pc : MainPC
  m : MainThread

/-- One step of `MainThread::idle_loop`. `think` is `Search::think` (defined in
`search.cpp`), and `wake` is what the other threads have done to the main thread
object when its wait ends. -/
def idle_step (think : MainThread → MainThread) (wake : MainThread → MainThread)
    (c : MainCfg) : MainCfg :=
  match c.pc with
  | MainPC.top => { pc := MainPC.test, m := { c.m with thinking := false } }
  | MainPC.test =>
    if !c.m.thinking && !c.m.exit then { c with pc := MainPC.parked }
    else { c with pc := MainPC.woken }
  | MainPC.parked => { pc := MainPC.test, m := wake c.m }
  | MainPC.woken =>
    if c.m.exit then { c with pc := MainPC.returned }
    else { pc := MainPC.think, m := { c.m with searching := true } }
  | MainPC.think => { pc := MainPC.afterThink, m := think c.m }
  | MainPC.afterThink => { pc := MainPC.top, m := { c.m with searching := false } }
  | MainPC.returned => c

/-- The configuration after `n` steps from `c`, where `wakes k` ends the wait at
step `k`. -/
def idle_run (think : MainThread → MainThread) (wakes : Nat → MainThread → MainThread) :
    Nat → MainCfg → MainCfg
  | 0, c => c
  | n + 1, c => idle_step think (wakes n) (idle_run think wakes n c)

/-! ## `ThreadPool::init` -/

/-- The member function `ThreadPool::init`: the timer is created, the main
thread is created and pushed on the vector, and `read_uci_options` is run. The
main thread is stored by its `Thread` part. -/
def init (ONE_PLY : Int) (optMinSplitDepth : Int) (requested : Nat) (w : World) :
    Option World :=
  let w1 : World := { w with timer := some {} }
  let w2 := w1.push_back (new_thread w1)
  read_uci_options ONE_PLY optMinSplitDepth requested w2

/-- A sequence of calls of `read_uci_options`, each with its values of the
options "Min Split Depth" and "Threads". -/
def resize_calls (ONE_PLY : Int) : List (Int × Nat) → World → Option World
  | [], w => some w
  | c :: rest, w =>
    match read_uci_options ONE_PLY c.1 c.2 w with
    | none => none
    | some w1 => resize_calls ONE_PLY rest w1

/-! ## Specification vocabulary and example states -/

/-- The split point as lines 262-279 of `split` leave it. -/
def split_sp (w : World) (self : Nat) (a : SplitArgs) : SplitPoint :=
  (split_init w self a).sp (split_slot w self)

/-- What one run of the recruitment loop, from `w` to `w1` with the threads `l`
recruited, does and leaves alone. -/
structure RecruitInv (master : Nat) (r : SPRef) (w w1 : World) (l : List Nat) : Prop where
  size_eq : w1.size = w.size
  positions_eq : w1.positions = w.positions
  idx_eq : ∀ p, (w1.threads p).idx = (w.threads p).idx
  spsize_eq : ∀ p, (w1.threads p).splitPointsSize = (w.threads p).splitPointsSize
  other_eq : ∀ p, (w1.threads p).exit = (w.threads p).exit ∧
    (w1.threads p).maxPly = (w.threads p).maxPly ∧
    (w1.threads p).activePosition = (w.threads p).activePosition
  splitPoints_eq : ∀ p, p ≠ r.owner → (w1.threads p).splitPoints = (w.threads p).splitPoints
  frame : ∀ p, p ∉ l → (w1.threads p).searching = (w.threads p).searching ∧
    (w1.threads p).activeSplitPoint = (w.threads p).activeSplitPoint
  recruited : ∀ p, p ∈ l → p < w.size ∧ (w.threads p).searching = false ∧
    (w1.threads p).searching = true ∧ (w1.threads p).activeSplitPoint = some r
  available : ∀ p, p ∈ l → p ≠ r.owner → (w.threads p).available_to (w.threads master) = true
  mask : ∀ i, (w1.sp r).slavesMask.test i = true ↔
    ((w.sp r).slavesMask.test i = true ∨ ∃ p, p ∈ l ∧ (w.threads p).idx = i)
  sp_eq : w1.sp r = { w.sp r with slavesMask := (w1.sp r).slavesMask }
  done : w1.available_slave (w1.threads master) = none
  nodup : l.Nodup

/-- The number of threads of the pool that are not searching. -/
def idleCount (w : World) : Nat :=
  ((Finset.range w.size).filter (fun p => (w.threads p).searching = false)).card

/-- The objects joined when a pool `w` is shrunk to `requested` threads, in the
order of their deletion: the last thread first. -/
def joined_by_shrink (w : World) (requested : Nat) : List Joined :=
  (List.range (w.size - requested)).map
    (fun k => Joined.worker { w.threads (w.size - 1 - k) with exit := true })

/-- A pool of three threads: thread 0 is searching, thread 1 is idle, thread 2
is searching. -/
def exWorld : World :=
  { threads := fun p =>
      if p = 1 then { idx := 1 } else { idx := p, searching := true }
    size := 3 }

/-- Arguments of a `split` call with `bestValue < alpha < beta`. -/
def exArgs : SplitArgs :=
  { pos := 7, ss := 1, alpha := 10, beta := 20, bestValue := 5, bestMove := 3, depth := 12,
    moveCount := 2, movePicker := 4, nodeType := 1, cutNode := false }

/-- A pool of three threads that are all searching. -/
def busyWorld : World :=
  { threads := fun p => { idx := p, searching := true }
    size := 3 }

/-- A pool of one thread with two split points on its stack: the one in slot 1
is active and its parent, in slot 0, has the cutoff flag set. -/
def chainWorld : World :=
  { threads := fun _ =>
      { splitPoints := fun s =>
          if s = 1 then { parentSplitPoint := some ⟨0, 0⟩ } else { cutoff := true }
        activeSplitPoint := some ⟨0, 1⟩
        splitPointsSize := 2
        searching := true }
    size := 1 }

/-- An idle loop that searches 100 nodes at the split point in slot 0 of the
calling thread, raises its bestValue to 15 with move 9, and leaves the thread
idle. -/
def exIdleLoop (self : Nat) (w : World) : World :=
  let w1 := w.setSP ⟨self, 0⟩
    { w.sp ⟨self, 0⟩ with nodes := 100, bestValue := 15, bestMove := 9 }
  w1.setThread self { w1.threads self with searching := false }

/-- The lock order of the claim, checked along a list of operations with the
flags "the pool mutex is held" and "a split point mutex is held": a split point
mutex is acquired only while the pool mutex is held, and the pool mutex is
released only when no split point mutex is held any more. -/
def lock_order_ok : Bool → Bool → List LockOp → Bool
  | _, _, [] => true
  | poolHeld, spHeld, op :: rest =>
    match op with
    | LockOp.lock Mutex.pool => lock_order_ok true spHeld rest
    | LockOp.unlock Mutex.pool => !spHeld && lock_order_ok false spHeld rest
    | LockOp.lock (Mutex.sp _) => poolHeld && lock_order_ok poolHeld true rest
    | LockOp.unlock (Mutex.sp _) => lock_order_ok poolHeld false rest
    | LockOp.lock (Mutex.thread _) => lock_order_ok poolHeld spHeld rest
    | LockOp.unlock (Mutex.thread _) => lock_order_ok poolHeld spHeld rest

/-- The operations on the pool mutex and on split point mutexes. -/
def on_pool_or_sp : LockOp → Bool
  | LockOp.lock (Mutex.thread _) => false
  | LockOp.unlock (Mutex.thread _) => false
  | _ => true

/-- What holds of the main thread at each program point of its idle loop:
`searching` is true when `Search::think` is called and false at every point from
the reset after the search to the end of the next wait. -/
def main_inv (c : MainCfg) : Prop :=
  match c.pc with
  | MainPC.think => c.m.searching = true
  | MainPC.afterThink => True
  | _ => c.m.searching = false

/-- A pool of three threads with a timer. -/
def timedWorld : World :=
  { threads := fun p => { idx := p }
    size := 3
    timer := some { run := true } }

/-- A shared search state whose main thread is not thinking, with old signals
and old root moves. -/
def exSearchState : SearchState :=
  { Signals := { stop := true, stopOnPonderhit := true, failedLowAtRoot := true }
    RootMoves := [RootMove.mk 99] }

/-- A move generator with the four legal moves 11, 12, 13, 14. -/
def exLegal (_ : Position) : List Move := [11, 12, 13, 14]

/-- Limits that list the moves 13, 50, 11 and 13 again. -/
def exLimits : LimitsType := { searchmoves := [13, 50, 11, 13], others := 5 }

/-- Every thread of the pool has its position as idx. -/
def idx_inv (w : World) : Prop :=
  ∀ i, i < w.size → (w.threads i).idx = i

end Stockfish

namespace Maverick

/-! ## Maverick 0.5: evaluation (`eval.cpp`)

`defs.h`, `data.h` and `procs.h` are not among the sources. The value type
`t_chess_value` is taken as the integers, squares and colours as naturals, and
the macros `RANK`, `COLUMN` and the table `lone_king` are parameters
(`EvalData`). -/

/-- The colour `WHITE`: the loops `for (color = WHITE; color <= BLACK; color++)`
and the factor `1 - color * 2` of `eval.cpp` fix it at 0. -/
def WHITE : Nat := 0

/-- The colour `BLACK`, fixed at 1 in the same way. -/
def BLACK : Nat := 1

/-- The fields of `t_board` that the evaluators below read. -/
structure t_board where
  king_square : Nat → Nat := fun _ => 0
  to_move : Int := 0

/-- The fields of `t_chess_eval` that the evaluators below read or write. -/
structure t_chess_eval where
  middlegame : Int := 0
  endgame : Int := 0
  game_phase : Int := 0
  static_score : Int := 0
  deriving DecidableEq, Repr

/-- The term functions that `calc_evaluation` calls and that work on bitboards
and tables of `data.h`: they are parameters here. -/
structure EvalTerms where
  calc_game_phase : t_board → t_chess_eval → t_chess_eval
  calc_pawn_value : t_board → t_chess_eval → t_chess_eval
  calc_piece_value : t_board → t_chess_eval → t_chess_eval
  calc_passed_pawns : t_board → t_chess_eval → t_chess_eval

/-- The function `calc_king_safety`, whose body is empty. -/
def calc_king_safety (_ : t_board) (eval : t_chess_eval) : t_chess_eval := eval

/-- Lines 40-56 of `calc_evaluation`: the accumulators are cleared and the
terms are added. -/
def calc_terms (T : EvalTerms) (board : t_board) (eval : t_chess_eval) : t_chess_eval :=
  let e1 := { eval with middlegame := 0 }
  let e2 := { e1 with endgame := 0 }
  let e3 := T.calc_game_phase board e2
  let e4 := T.calc_pawn_value board e3
  let e5 := T.calc_piece_value board e4
  let e6 := T.calc_passed_pawns board e5
  calc_king_safety board e6

/-- The function `calc_evaluation`: the returned score and the evaluation record
it leaves. The division is that of C, which truncates toward zero. -/
def calc_evaluation (T : EvalTerms) (board : t_board) (eval : t_chess_eval) :
    Int × t_chess_eval :=
  let e := calc_terms T board eval
  let score :=
    (1 - 2 * board.to_move)
      * Int.tdiv (e.middlegame * e.game_phase + e.endgame * (256 - e.game_phase)) 256
  (score, { e with static_score := score })

/-- The macros `RANK` and `COLUMN` of `defs.h` and the table `lone_king` of
`data.h`, which are not among the sources. -/
structure EvalData where
  RANK : Nat → Int
  COLUMN : Nat → Int
  lone_king : Nat → Int

/-- The function `square_distance`. -/
def square_distance (d : EvalData) (s1 s2 : Nat) : Int :=
  let r := |d.RANK s1 - d.RANK s2|
  let c := |d.COLUMN s1 - d.COLUMN s2|
  if r > c then r else c

/-- The function `known_endgame_QKvk`. -/
def known_endgame_QKvk (d : EvalData) (board : t_board) (eval : t_chess_eval) : t_chess_eval :=
  let e1 := { eval with
    static_score := d.lone_king (board.king_square BLACK) + 1200
      - 10 * square_distance d (board.king_square WHITE) (board.king_square BLACK) }
  { e1 with static_score := e1.static_score * (1 - board.to_move * 2) }

/-- The function `known_endgame_Kvqk`. -/
def known_endgame_Kvqk (d : EvalData) (board : t_board) (eval : t_chess_eval) : t_chess_eval :=
  let e1 := { eval with
    static_score := -d.lone_king (board.king_square WHITE) - 1200
      + 10 * square_distance d (board.king_square WHITE) (board.king_square BLACK) }
  { e1 with static_score := e1.static_score * (1 - board.to_move * 2) }

/-- The function `known_endgame_RKvk`. -/
def known_endgame_RKvk (d : EvalData) (board : t_board) (eval : t_chess_eval) : t_chess_eval :=
  let e1 := { eval with
    static_score := d.lone_king (board.king_square BLACK) + 800
      - 10 * square_distance d (board.king_square WHITE) (board.king_square BLACK) }
  { e1 with static_score := e1.static_score * (1 - board.to_move * 2) }

/-- The function `known_endgame_Kvrk`. -/
def known_endgame_Kvrk (d : EvalData) (board : t_board) (eval : t_chess_eval) : t_chess_eval :=
  let e1 := { eval with
    static_score := -d.lone_king (board.king_square WHITE) - 800
      + 10 * square_distance d (board.king_square WHITE) (board.king_square BLACK) }
  { e1 with static_score := e1.static_score * (1 - board.to_move * 2) }

/-- The function `known_endgame_BBKvk`. -/
def known_endgame_BBKvk (d : EvalData) (board : t_board) (eval : t_chess_eval) :
    t_chess_eval :=
  let e1 := { eval with
    static_score := d.lone_king (board.king_square BLACK) + 1000
      - 10 * square_distance d (board.king_square WHITE) (board.king_square BLACK) }
  { e1 with static_score := e1.static_score * (1 - board.to_move * 2) }

/-- The function `known_endgame_Kvbbk`. -/
def known_endgame_Kvbbk (d : EvalData) (board : t_board) (eval : t_chess_eval) :
    t_chess_eval :=
  let e1 := { eval with
    static_score := -d.lone_king (board.king_square WHITE) - 1000
      + 10 * square_distance d (board.king_square WHITE) (board.king_square BLACK) }
  { e1 with static_score := e1.static_score * (1 - board.to_move * 2) }

/-- The function `known_endgame_KRNvk`. -/
def known_endgame_KRNvk (d : EvalData) (board : t_board) (eval : t_chess_eval) :
    t_chess_eval :=
  let e1 := { eval with
    static_score := d.lone_king (board.king_square BLACK) + 1100
      - 10 * square_distance d (board.king_square WHITE) (board.king_square BLACK) }
  { e1 with static_score := e1.static_score * (1 - board.to_move * 2) }

/-- The function `known_endgame_Kvkrn`. It reads `lone_king` at the square of
the black king, as the source does. -/
def known_endgame_Kvkrn (d : EvalData) (board : t_board) (eval : t_chess_eval) :
    t_chess_eval :=
  let e1 := { eval with
    static_score := -d.lone_king (board.king_square BLACK) - 1100
      + 10 * square_distance d (board.king_square WHITE) (board.king_square BLACK) }
  { e1 with static_score := e1.static_score * (1 - board.to_move * 2) }

/-- The function `known_endgame_KRBvk`. -/
def known_endgame_KRBvk (d : EvalData) (board : t_board) (eval : t_chess_eval) :
    t_chess_eval :=
  let e1 := { eval with
    static_score := d.lone_king (board.king_square BLACK) + 1100
      - 10 * square_distance d (board.king_square WHITE) (board.king_square BLACK) }
  { e1 with static_score := e1.static_score * (1 - board.to_move * 2) }

/-- The function `known_endgame_Kvkrb`. It reads `lone_king` at the square of
the black king, as the source does. -/
def known_endgame_Kvkrb (d : EvalData) (board : t_board) (eval : t_chess_eval) :
    t_chess_eval :=
  let e1 := { eval with
    static_score := -d.lone_king (board.king_square BLACK) - 1100
      + 10 * square_distance d (board.king_square WHITE) (board.king_square BLACK) }
  { e1 with static_score := e1.static_score * (1 - board.to_move * 2) }

/-- Modelled from the spec: `flip_board` is defined outside the sources. On the
fields read here the colour flip is as the claims describe it: the two king
squares are exchanged and mirrored vertically by `mirror`, and the side to move
is toggled. -/
def flip_board (mirror : Nat → Nat) (board : t_board) : t_board :=
  { board with
    king_square := fun color => mirror (board.king_square (1 - color))
    to_move := 1 - board.to_move }

/-! ## Maverick 0.5: the rook on the 7th rank (`calc_piece_value`) -/

/-- The constant `MG_ROOK_ON_7TH` of `eval.h`. -/
def MG_ROOK_ON_7TH : Int := 10

/-- The constant `EG_ROOK_ON_7TH` of `eval.h`. -/
def EG_ROOK_ON_7TH : Int := 5

/-- The bitboards that lines 113-125 of `calc_piece_value` read for one colour:
the rooks of the colour (`b`), the king of the opponent, and the masks
`rank_mask[color][6]` and `rank_mask[color][7]`. -/
structure RookInput where
  rooks : Nat
  enemy_king : Nat
  rank7 : Nat
  rank8 : Nat
  deriving DecidableEq, Repr

/-- Lines 105-106 and 121-125 of `calc_piece_value`: the values of the local
terms `middlegame` and `endgame` of one colour after the test for a rook on the
7th rank. The rest of the loop body only adds to them. -/
def rook_on_7th (i : RookInput) : Int × Int :=
  let middlegame : Int := 0
  let endgame : Int := 0
  if i.rooks &&& i.rank7 ≠ 0 ∧ i.enemy_king &&& i.rank8 ≠ 0 then
    (MG_ROOK_ON_7TH, MG_ROOK_ON_7TH)
  else (middlegame, endgame)

/-! ## Maverick 0.5: hash table (modelled from the spec) -/

/-- The bound of a stored score. -/
inductive t_hash_bound where
  | HASH_EXACT
  | HASH_LOWER
  | HASH_UPPER
  deriving DecidableEq, Repr

/-- An entry of the table, with the fields that the spec lists. -/
structure t_hash_record where
  key : Nat
  depth : Int
  score : Int
  bound : t_hash_bound
  move : Nat
  generation : Nat
  deriving DecidableEq, Repr

/-- Modelled from the spec: the hash table, whose functions `poke` and `probe`
are defined in a file that is not among the sources. The table has a number of
clusters fixed at configuration; a key belongs to the cluster `key % size`, and
a slot of a cluster is empty or holds an entry. -/
structure HashTable where
  size : Nat
  cluster : Nat → List (Option t_hash_record)
  generation : Nat

/-- The first slot of a cluster that holds an entry for `key`, if there is
one. -/
def find_key (key : Nat) : List (Option t_hash_record) → Option Nat
  | [] => none
  | none :: rest => (find_key key rest).map (· + 1)
  | some e :: rest => if e.key = key then some 0 else (find_key key rest).map (· + 1)

/-- Modelled from the spec: the replacement preference "prefer overwriting
entries from older search generations or shallower depth": an empty slot goes
before any entry, an entry of an older generation before one of the current
generation, and between entries of the same age the shallower one. -/
def replace_before (generation : Nat) : Option t_hash_record → Option t_hash_record → Bool
  | none, _ => true
  | some _, none => false
  | some x, some y =>
    if x.generation = generation ∧ y.generation ≠ generation then false
    else if x.generation ≠ generation ∧ y.generation = generation then true
    else decide (x.depth ≤ y.depth)

/-- The slot of a cluster that the replacement preference gives up first. -/
def victim (generation : Nat) : List (Option t_hash_record) → Nat
  | [] => 0
  | [_] => 0
  | x :: y :: rest =>
    if replace_before generation x ((y :: rest).getD (victim generation (y :: rest)) none)
    then 0
    else victim generation (y :: rest) + 1

/-- The slot of a cluster that `store` writes for `key`: the slot of the entry
for the key when the cluster has one, and otherwise the slot that the
replacement preference gives up first. -/
def store_slot (generation : Nat) (key : Nat) (c : List (Option t_hash_record)) : Nat :=
  match find_key key c with
  | some j => j
  | none => victim generation c

/-- Modelled from the spec: `store(key, depth, bound, score, move)` "inserts or
overwrites an entry for `key`": the entry for the key is overwritten when the
cluster has one, and otherwise the slot chosen by the replacement preference
is. -/
def store (t : HashTable) (key : Nat) (depth : Int) (bound : t_hash_bound) (score : Int)
    (move : Nat) : HashTable :=
  let c := t.cluster (key % t.size)
  let e : t_hash_record :=
    { key := key, depth := depth, score := score, bound := bound, move := move,
      generation := t.generation }
  { t with
    cluster := Function.update t.cluster (key % t.size)
      (c.set (store_slot t.generation key c) (some e)) }

/-- Modelled from the spec: `probe(key)` gives the entry for `key` in the
cluster of the key, or a miss. -/
def probe (t : HashTable) (key : Nat) : Option t_hash_record :=
  let c := t.cluster (key % t.size)
  match find_key key c with
  | some j => c.getD j none
  | none => none

/-! ## Maverick 0.5: example data -/

/-- The usual square geometry (rank `s / 8`, column `s % 8`) with a `lone_king`
table that grows from the centre of the board to its edge. -/
def exData : EvalData :=
  { RANK := fun s => ((s / 8 : Nat) : Int)
    COLUMN := fun s => ((s % 8 : Nat) : Int)
    lone_king := fun s =>
      ([70, 70, 70, 70, 70, 70, 70, 70,
        70, 50, 50, 50, 50, 50, 50, 70,
        70, 50, 30, 30, 30, 30, 50, 70,
        70, 50, 30, 10, 10, 30, 50, 70,
        70, 50, 30, 10, 10, 30, 50, 70,
        70, 50, 30, 30, 30, 30, 50, 70,
        70, 50, 50, 50, 50, 50, 50, 70,
        70, 70, 70, 70, 70, 70, 70, 70] : List Int).getD s 0 }

/-- The vertical mirror of a square, `s ^ 56`. -/
def exMirror (s : Nat) : Nat := s ^^^ 56

/-- A board with the white king on e4 (28), the black king on a8 (56) and White
to move. -/
def exBoard : t_board :=
  { king_square := fun color => if color = 0 then 28 else 56
    to_move := 0 }

/-- Term functions for an example: the phase is 100 and the piece term is the
difference of the `lone_king` values of the two king squares. -/
def exTerms : EvalTerms :=
  { calc_game_phase := fun _ e => { e with game_phase := 100 }
    calc_pawn_value := fun _ e => e
    calc_piece_value := fun b e =>
      { e with
        middlegame := e.middlegame
          + (exData.lone_king (b.king_square 0) - exData.lone_king (b.king_square 1))
        endgame := e.endgame
          + 3 * (exData.lone_king (b.king_square 0) - exData.lone_king (b.king_square 1)) }
    calc_passed_pawns := fun _ e => e }

/-- A table of four clusters of two slots, with an entry for key 9 in the
second slot of cluster 1. -/
def exTable : HashTable :=
  { size := 4
    cluster := fun i =>
      if i = 1 then
        [none, some { key := 9, depth := 3, score := 0, bound := t_hash_bound.HASH_EXACT,
                      move := 1, generation := 0 }]
      else [none, none]
    generation := 2 }

/-- A white rook on a7 and the black king on h8, with the masks of the 7th
and 8th rank. -/
def exRook : RookInput :=
  { rooks := 2 ^ 48, enemy_king := 2 ^ 63, rank7 := 255 * 2 ^ 48, rank8 := 255 * 2 ^ 56 }

end Maverick

namespace Stockfish

/-! ## Memory lemmas -/

@[simp] theorem setThread_size (w : World) (p : Nat) (t : Thread) :
    (w.setThread p t).size = w.size := rfl

@[simp] theorem setThread_threads_same (w : World) (p : Nat) (t : Thread) :
    (w.setThread p t).threads p = t := by
  simp [World.setThread]

theorem setThread_threads_ne (w : World) (p q : Nat) (t : Thread) (h : q ≠ p) :
    (w.setThread p t).threads q = w.threads q := by
  simp [World.setThread, Function.update_noteq h]

@[simp] theorem setSP_size (w : World) (r : SPRef) (s : SplitPoint) :
    (w.setSP r s).size = w.size := rfl

@[simp] theorem setSP_sp_same (w : World) (r : SPRef) (s : SplitPoint) :
    (w.setSP r s).sp r = s := by
  simp [World.setSP, World.sp]

theorem test_set (mask : SlavesMask) (i j : Nat) :
    SlavesMask.test (SlavesMask.set mask i) j = (SlavesMask.test mask j || decide (i = j)) := by
  simp [SlavesMask.test, SlavesMask.set, Nat.testBit_or, Nat.one_shiftLeft, Nat.testBit_two_pow]

theorem test_zero (j : Nat) : SlavesMask.test 0 j = false := by
  simp [SlavesMask.test]

/-! ## `available_to` and `available_slave` -/

theorem available_to_true_iff (t m : Thread) :
    t.available_to m = true ↔
      t.searching = false ∧
        (t.splitPointsSize = 0 ∨
          (t.splitPoints (t.splitPointsSize - 1)).slavesMask.test m.idx = true) := by
  unfold Thread.available_to
  cases hs : t.searching <;> simp

theorem available_to_searching (t m : Thread) (h : t.available_to m = true) :
    t.searching = false := ((available_to_true_iff t m).1 h).1

/-- C1. A thread is available to a master exactly when it is not searching and
either has no split point or the top split point of its own stack has the
master's idx in its slavesMask; a searching thread is available to no master. -/
theorem available_to_iff (t m : Thread) :
    (t.available_to m = true ↔
      t.searching = false ∧
        (t.splitPointsSize = 0 ∨
          (t.splitPoints (t.splitPointsSize - 1)).slavesMask.test m.idx = true)) ∧
    (t.searching = true → ∀ master : Thread, t.available_to master = false) := by
  refine ⟨available_to_true_iff t m, ?_⟩
  intro hs master
  cases hav : t.available_to master with
  | false => rfl
  | true =>
    have := available_to_searching t master hav
    rw [hs] at this
    cases this

theorem available_slave_from_some (w : World) (master : Thread) (n i j : Nat) :
    available_slave_from w master n i = some j ↔
      (i ≤ j ∧ j < i + n) ∧ (w.threads j).available_to master = true ∧
        ∀ k, i ≤ k → k < j → (w.threads k).available_to master = false := by
  induction n generalizing i with
  | zero =>
    simp only [available_slave_from]
    constructor
    · intro h; cases h
    · rintro ⟨⟨h1, h2⟩, _⟩; omega
  | succ n ih =>
    simp only [available_slave_from]
    by_cases hi : (w.threads i).available_to master = true
    · rw [if_pos hi, Option.some.injEq]
      constructor
      · rintro rfl
        exact ⟨⟨le_refl _, by omega⟩, hi, fun k h1 h2 => by omega⟩
      · rintro ⟨⟨h1, _⟩, _, h3⟩
        by_contra hne
        have hlt : i < j := lt_of_le_of_ne h1 hne
        have := h3 i (le_refl _) hlt
        simp [hi] at this
    · rw [if_neg hi, ih]
      have hi2 : (w.threads i).available_to master = false := by simpa using hi
      constructor
      · rintro ⟨⟨h1, h2⟩, h3, h4⟩
        refine ⟨⟨by omega, by omega⟩, h3, fun k hk1 hk2 => ?_⟩
        by_cases hk : k = i
        · subst hk; exact hi2
        · exact h4 k (by omega) hk2
      · rintro ⟨⟨h1, h2⟩, h3, h4⟩
        have hne : i ≠ j := by
          rintro rfl
          simp [hi2] at h3
        exact ⟨⟨by omega, by omega⟩, h3, fun k hk1 hk2 => h4 k (by omega) hk2⟩

theorem available_slave_from_none (w : World) (master : Thread) (n i : Nat) :
    available_slave_from w master n i = none ↔
      ∀ k, i ≤ k → k < i + n → (w.threads k).available_to master = false := by
  induction n generalizing i with
  | zero =>
    simp only [available_slave_from, true_iff]
    intro k h1 h2; omega
  | succ n ih =>
    simp only [available_slave_from]
    by_cases hi : (w.threads i).available_to master = true
    · rw [if_pos hi]
      constructor
      · intro h; cases h
      · intro h
        have := h i (le_refl _) (by omega)
        simp [hi] at this
    · rw [if_neg hi, ih]
      have hi2 : (w.threads i).available_to master = false := by simpa using hi
      constructor
      · intro h k hk1 hk2
        by_cases hk : k = i
        · subst hk; exact hi2
        · exact h k (by omega) (by omega)
      · intro h k hk1 hk2
        exact h k (by omega) (by omega)

theorem available_slave_some_iff (w : World) (m : Thread) (j : Nat) :
    w.available_slave m = some j ↔
      j < w.size ∧ (w.threads j).available_to m = true ∧
        ∀ k, k < j → (w.threads k).available_to m = false := by
  rw [World.available_slave, available_slave_from_some]
  constructor
  · rintro ⟨⟨_, h2⟩, h3, h4⟩
    exact ⟨by omega, h3, fun k hk => h4 k (Nat.zero_le _) hk⟩
  · rintro ⟨h2, h3, h4⟩
    exact ⟨⟨Nat.zero_le _, by omega⟩, h3, fun k _ hk => h4 k hk⟩

/-- C2. The scan `available_slave` returns the first thread in pool order that is
available to the master, and returns none exactly when no thread of the pool is
available to the master. -/
theorem available_slave_first (w : World) (m : Thread) :
    (∀ j, w.available_slave m = some j ↔
      j < w.size ∧ (w.threads j).available_to m = true ∧
        ∀ k, k < j → (w.threads k).available_to m = false) ∧
    (w.available_slave m = none ↔
      ∀ k, k < w.size → (w.threads k).available_to m = false) := by
  constructor
  · intro j
    rw [World.available_slave, available_slave_from_some]
    constructor
    · rintro ⟨⟨_, h2⟩, h3, h4⟩
      exact ⟨by omega, h3, fun k hk => h4 k (Nat.zero_le _) hk⟩
    · rintro ⟨h2, h3, h4⟩
      exact ⟨⟨Nat.zero_le _, by omega⟩, h3, fun k _ hk => h4 k hk⟩
  · rw [World.available_slave, available_slave_from_none]
    constructor
    · intro h k hk
      exact h k (Nat.zero_le _) (by omega)
    · intro h k _ hk
      exact h k (by omega)

/-! ## `cutoff_occurred` -/

theorem cutoff_loop_spec (w : World) (n : Nat) :
    ∀ (p : Option SPRef) (fuel : Nat), nthAncestor w n p = none → n ≤ fuel →
      ∃ b, cutoff_loop w fuel p = some b ∧
        (b = true ↔ ∃ k r, nthAncestor w k p = some r ∧ (w.sp r).cutoff = true) := by
  induction n with
  | zero =>
    intro p fuel hp _
    simp only [nthAncestor] at hp
    subst hp
    refine ⟨false, by cases fuel <;> rfl, ?_⟩
    simp only [Bool.false_eq_true, false_iff, not_exists, not_and]
    intro k r hk
    cases k <;> simp [nthAncestor] at hk
  | succ n ih =>
    intro p fuel hp hf
    cases p with
    | none =>
      refine ⟨false, by cases fuel <;> rfl, ?_⟩
      simp only [Bool.false_eq_true, false_iff, not_exists, not_and]
      intro k r hk
      cases k <;> simp [nthAncestor] at hk
    | some r =>
      obtain ⟨fuel, rfl⟩ : ∃ f, fuel = f + 1 := ⟨fuel - 1, by omega⟩
      simp only [nthAncestor] at hp
      by_cases hc : (w.sp r).cutoff = true
      · refine ⟨true, by simp [cutoff_loop, hc], ?_⟩
        simp only [true_iff]
        exact ⟨0, r, rfl, hc⟩
      · obtain ⟨b, hb, hiff⟩ := ih (w.sp r).parentSplitPoint fuel hp (by omega)
        refine ⟨b, by simp [cutoff_loop, hc, hb], ?_⟩
        rw [hiff]
        constructor
        · rintro ⟨k, q, hk, hq⟩
          exact ⟨k + 1, q, by simpa [nthAncestor] using hk, hq⟩
        · rintro ⟨k, q, hk, hq⟩
          cases k with
          | zero =>
            simp only [nthAncestor, Option.some.injEq] at hk
            subst hk
            exact absurd hq hc
          | succ k =>
            exact ⟨k, q, by simpa [nthAncestor] using hk, hq⟩

/-- C3. When the parent chain of the thread's active split point is finite (it
reaches the null pointer after `n` links), `cutoff_occurred` returns, and it
returns true exactly when the cutoff flag is set on the active split point or on
a split point reachable from it through parent links; with a null active split
point it returns false. -/
theorem cutoff_occurred_iff (w : World) (t : Thread) (n fuel : Nat)
    (hfin : nthAncestor w n t.activeSplitPoint = none) (hfuel : n ≤ fuel) :
    (∃ b, t.cutoff_occurred w fuel = some b ∧
      (b = true ↔
        ∃ k r, nthAncestor w k t.activeSplitPoint = some r ∧ (w.sp r).cutoff = true)) ∧
    (t.activeSplitPoint = none → t.cutoff_occurred w fuel = some false) := by
  refine ⟨cutoff_loop_spec w n t.activeSplitPoint fuel hfin hfuel, ?_⟩
  intro h
  simp only [Thread.cutoff_occurred, h]
  cases fuel <;> rfl

theorem threads_setThread (w : World) (p q : Nat) (t : Thread) :
    (w.setThread p t).threads q = if q = p then t else w.threads q := by
  simp [World.setThread, Function.update_apply]

theorem threads_setSP (w : World) (r : SPRef) (s : SplitPoint) (q : Nat) :
    (w.setSP r s).threads q =
      if q = r.owner then
        { w.threads r.owner with
          splitPoints := Function.update (w.threads r.owner).splitPoints r.slot s }
      else w.threads q := by
  simp [World.setSP, World.setThread, Function.update_apply]

theorem recruit_step_size (w : World) (r : SPRef) (s : Nat) :
    (recruit_step w r s).size = w.size := rfl

theorem recruit_step_idx (w : World) (r : SPRef) (s p : Nat) :
    ((recruit_step w r s).threads p).idx = (w.threads p).idx := by
  simp only [recruit_step, threads_setSP, threads_setThread]
  split_ifs <;> simp_all

theorem recruit_step_splitPointsSize (w : World) (r : SPRef) (s p : Nat) :
    ((recruit_step w r s).threads p).splitPointsSize = (w.threads p).splitPointsSize := by
  simp only [recruit_step, threads_setSP, threads_setThread]
  split_ifs <;> simp_all

theorem recruit_step_searching (w : World) (r : SPRef) (s p : Nat) :
    ((recruit_step w r s).threads p).searching =
      if p = s then true else (w.threads p).searching := by
  simp only [recruit_step, threads_setSP, threads_setThread]
  split_ifs <;> simp_all

theorem recruit_step_activeSplitPoint (w : World) (r : SPRef) (s p : Nat) :
    ((recruit_step w r s).threads p).activeSplitPoint =
      if p = s then some r else (w.threads p).activeSplitPoint := by
  simp only [recruit_step, threads_setSP, threads_setThread]
  split_ifs <;> simp_all

theorem recruit_step_splitPoints (w : World) (r : SPRef) (s p : Nat) (h : p ≠ r.owner) :
    ((recruit_step w r s).threads p).splitPoints = (w.threads p).splitPoints := by
  simp only [recruit_step, threads_setSP, threads_setThread]
  split_ifs <;> simp_all

theorem recruit_step_sp (w : World) (r : SPRef) (s : Nat) :
    (recruit_step w r s).sp r =
      { w.sp r with slavesMask := (w.sp r).slavesMask.set (w.threads s).idx } := by
  simp only [recruit_step, World.sp, threads_setSP, threads_setThread]
  split_ifs <;> simp_all

theorem recruit_step_positions (w : World) (r : SPRef) (s : Nat) :
    (recruit_step w r s).positions = w.positions := rfl

theorem recruit_step_other (w : World) (r : SPRef) (s p : Nat) :
    ((recruit_step w r s).threads p).exit = (w.threads p).exit ∧
    ((recruit_step w r s).threads p).maxPly = (w.threads p).maxPly ∧
    ((recruit_step w r s).threads p).activePosition = (w.threads p).activePosition := by
  simp only [recruit_step, threads_setSP, threads_setThread]
  split_ifs <;> simp_all

theorem RecruitInv.refl (self : Nat) (r : SPRef) (w : World)
    (h : w.available_slave (w.threads self) = none) : RecruitInv self r w w [] where
  size_eq := rfl
  positions_eq := rfl
  idx_eq := fun _ => rfl
  spsize_eq := fun _ => rfl
  other_eq := fun _ => ⟨rfl, rfl, rfl⟩
  splitPoints_eq := fun _ _ => rfl
  frame := fun _ _ => ⟨rfl, rfl⟩
  recruited := fun _ hp => by cases hp
  available := fun _ hp => by cases hp
  mask := fun i => by simp
  sp_eq := rfl
  done := h
  nodup := List.nodup_nil

theorem available_to_congr (t u m n : Thread) (h1 : t.searching = u.searching)
    (h2 : t.splitPointsSize = u.splitPointsSize) (h3 : t.splitPoints = u.splitPoints)
    (h4 : m.idx = n.idx) : t.available_to m = u.available_to n := by
  simp only [Thread.available_to, h1, h2, h3, h4]

theorem RecruitInv.step (self : Nat) (r : SPRef) (w w1 : World) (slave : Nat) (l : List Nat)
    (hs : w.available_slave (w.threads self) = some slave)
    (h : RecruitInv self r (recruit_step w r slave) w1 l) :
    RecruitInv self r w w1 (slave :: l) := by
  obtain ⟨hlt, hav, _⟩ := (available_slave_some_iff w (w.threads self) slave).1 hs
  have hidle : (w.threads slave).searching = false := available_to_searching _ _ hav
  have hnotin : slave ∉ l := by
    intro hmem
    have := (h.recruited slave hmem).2.1
    simp [recruit_step_searching] at this
  have hne : ∀ p, p ∈ l → p ≠ slave := fun p hp hps => hnotin (hps ▸ hp)
  refine
    { size_eq := h.size_eq
      positions_eq := h.positions_eq
      idx_eq := fun p => by rw [h.idx_eq, recruit_step_idx]
      spsize_eq := fun p => by rw [h.spsize_eq, recruit_step_splitPointsSize]
      other_eq := fun p => by
        obtain ⟨a1, a2, a3⟩ := h.other_eq p
        obtain ⟨b1, b2, b3⟩ := recruit_step_other w r slave p
        exact ⟨a1.trans b1, a2.trans b2, a3.trans b3⟩
      splitPoints_eq := fun p hp => by
        rw [h.splitPoints_eq p hp, recruit_step_splitPoints w r slave p hp]
      frame := ?_
      recruited := ?_
      available := ?_
      mask := ?_
      sp_eq := ?_
      done := h.done
      nodup := List.nodup_cons.2 ⟨hnotin, h.nodup⟩ }
  · intro p hp
    have hp1 : p ≠ slave := fun e => hp (e ▸ List.mem_cons_self _ _)
    have hp2 : p ∉ l := fun e => hp (List.mem_cons_of_mem _ e)
    obtain ⟨a1, a2⟩ := h.frame p hp2
    rw [a1, a2, recruit_step_searching, recruit_step_activeSplitPoint, if_neg hp1, if_neg hp1]
    exact ⟨rfl, rfl⟩
  · intro p hp
    rcases List.mem_cons.1 hp with rfl | hp
    · obtain ⟨a1, a2⟩ := h.frame p hnotin
      refine ⟨hlt, hidle, ?_, ?_⟩
      · rw [a1, recruit_step_searching, if_pos rfl]
      · rw [a2, recruit_step_activeSplitPoint, if_pos rfl]
    · obtain ⟨b1, b2, b3, b4⟩ := h.recruited p hp
      rw [recruit_step_searching, if_neg (hne p hp)] at b2
      exact ⟨b1, b2, b3, b4⟩
  · intro p hp hpo
    rcases List.mem_cons.1 hp with rfl | hp
    · exact hav
    · have := h.available p hp hpo
      rw [← this]
      apply available_to_congr
      · rw [recruit_step_searching, if_neg (hne p hp)]
      · rw [recruit_step_splitPointsSize]
      · rw [recruit_step_splitPoints w r slave p hpo]
      · rw [recruit_step_idx]
  · intro i
    rw [h.mask i, recruit_step_sp]
    simp only [test_set, Bool.or_eq_true, decide_eq_true_eq, recruit_step_idx, List.mem_cons,
      exists_eq_or_imp]
    tauto
  · rw [h.sp_eq, recruit_step_sp]

theorem recruit_loop_inv (self : Nat) (r : SPRef) :
    ∀ (fuel : Nat) (w w1 : World) (l : List Nat),
      recruit_loop self r fuel w = some (w1, l) → RecruitInv self r w w1 l := by
  intro fuel
  induction fuel with
  | zero =>
    intro w w1 l h
    simp only [recruit_loop] at h
    split at h
    · rename_i hnone
      cases h
      exact RecruitInv.refl self r w hnone
    · cases h
  | succ fuel ih =>
    intro w w1 l h
    simp only [recruit_loop] at h
    split at h
    · rename_i hnone
      cases h
      exact RecruitInv.refl self r w hnone
    · rename_i slave hs
      split at h
      · cases h
      · rename_i w2 l2 h2
        cases h
        exact RecruitInv.step _ _ _ _ _ _ hs (ih _ _ _ h2)

theorem idleCount_le_size (w : World) : idleCount w ≤ w.size := by
  unfold idleCount
  calc _ ≤ (Finset.range w.size).card := Finset.card_filter_le _ _
    _ = w.size := Finset.card_range _

theorem idleCount_step_lt (w : World) (r : SPRef) (slave : Nat) (hlt : slave < w.size)
    (hidle : (w.threads slave).searching = false) :
    idleCount (recruit_step w r slave) < idleCount w := by
  unfold idleCount
  apply Finset.card_lt_card
  rw [Finset.ssubset_iff_of_subset]
  · refine ⟨slave, ?_, ?_⟩
    · simp [hlt, hidle]
    · simp [recruit_step_searching]
  · intro x hx
    simp only [Finset.mem_filter, Finset.mem_range, recruit_step_size,
      recruit_step_searching] at hx ⊢
    refine ⟨hx.1, ?_⟩
    by_cases hxs : x = slave
    · simp [hxs] at hx
    · simpa [hxs] using hx.2

theorem recruit_loop_some (self : Nat) (r : SPRef) :
    ∀ (fuel : Nat) (w : World), idleCount w ≤ fuel →
      ∃ res, recruit_loop self r fuel w = some res := by
  intro fuel
  induction fuel with
  | zero =>
    intro w hw
    cases hs : w.available_slave (w.threads self) with
    | none => exact ⟨(w, []), by simp [recruit_loop, hs]⟩
    | some slave =>
      exfalso
      obtain ⟨hlt, hav, _⟩ := (available_slave_some_iff w (w.threads self) slave).1 hs
      have := idleCount_step_lt w r slave hlt (available_to_searching _ _ hav)
      omega
  | succ fuel ih =>
    intro w hw
    cases hs : w.available_slave (w.threads self) with
    | none => exact ⟨(w, []), by simp [recruit_loop, hs]⟩
    | some slave =>
      obtain ⟨hlt, hav, _⟩ := (available_slave_some_iff w (w.threads self) slave).1 hs
      have hdec := idleCount_step_lt w r slave hlt (available_to_searching _ _ hav)
      obtain ⟨⟨w2, l2⟩, h2⟩ := ih (recruit_step w r slave) (by omega)
      exact ⟨(w2, slave :: l2), by simp [recruit_loop, hs, h2]⟩

theorem split_init_threads (w : World) (self : Nat) (a : SplitArgs) (p : Nat) :
    (split_init w self a).threads p =
      if p = self then
        { w.threads self with
          splitPoints := Function.update (w.threads self).splitPoints
            (w.threads self).splitPointsSize (split_sp w self a) }
      else w.threads p := by
  simp only [split_sp, split_init, threads_setSP, World.sp, split_slot]
  split_ifs <;> simp

theorem split_setup_threads_self (w : World) (self : Nat) (a : SplitArgs) :
    (split_setup (split_init w self a) self (split_slot w self)).threads self =
      { w.threads self with
        splitPoints := Function.update (w.threads self).splitPoints
          (w.threads self).splitPointsSize
          { split_sp w self a with allSlavesSearching := true }
        splitPointsSize := (w.threads self).splitPointsSize + 1
        activeSplitPoint := some (split_slot w self)
        activePosition := none } := by
  simp only [split_setup, threads_setSP, threads_setThread, World.sp, split_init_threads,
    split_slot]
  simp

theorem split_setup_threads_ne (w : World) (self : Nat) (a : SplitArgs) (p : Nat)
    (h : p ≠ self) :
    (split_setup (split_init w self a) self (split_slot w self)).threads p = w.threads p := by
  simp only [split_setup, threads_setSP, threads_setThread, World.sp, split_init_threads,
    split_slot]
  simp [h]

theorem split_setup_sp (w : World) (self : Nat) (a : SplitArgs) :
    (split_setup (split_init w self a) self (split_slot w self)).sp (split_slot w self) =
      { split_sp w self a with allSlavesSearching := true } := by
  unfold World.sp
  rw [show (split_slot w self).owner = self from rfl, split_setup_threads_self]
  simp [split_slot]

theorem split_setup_size (w : World) (self : Nat) (a : SplitArgs) :
    (split_setup (split_init w self a) self (split_slot w self)).size = w.size := rfl

theorem split_setup_positions (w : World) (self : Nat) (a : SplitArgs) :
    (split_setup (split_init w self a) self (split_slot w self)).positions = w.positions := rfl

theorem split_sp_mask (w : World) (self : Nat) (a : SplitArgs) (i : Nat) :
    (split_sp w self a).slavesMask.test i = true ↔ i = (w.threads self).idx := by
  simp only [split_sp, split_init, setSP_sp_same, test_set, test_zero, Bool.false_or,
    decide_eq_true_eq]
  exact eq_comm

theorem split_enter_fake (w : World) (self : Nat) (a : SplitArgs) :
    split_enter true w self a =
      some (split_setup (split_init w self a) self (split_slot w self), []) := by
  simp [split_enter, split_recruit]

theorem split_enter_recruit (w : World) (self : Nat) (a : SplitArgs) :
    ∃ w1 l, split_enter false w self a = some (w1, l) ∧
      RecruitInv self (split_slot w self)
        (split_setup (split_init w self a) self (split_slot w self)) w1 l := by
  obtain ⟨⟨w1, l⟩, h⟩ := recruit_loop_some self (split_slot w self)
    (split_setup (split_init w self a) self (split_slot w self)).size
    (split_setup (split_init w self a) self (split_slot w self)) (idleCount_le_size _)
  refine ⟨w1, l, ?_, recruit_loop_inv _ _ _ _ _ _ h⟩
  simpa [split_enter, split_recruit] using h

/-- C4. `split` fills the slot `splitPoints[splitPointsSize]` of the caller, with
`splitPointsSize` as at entry: the search fields equal the arguments, bestValue
and bestMove equal the values behind the two pointers, cutoff is false, nodes is
0, masterThread is the caller, parentSplitPoint is the caller's activeSplitPoint
at entry, and slavesMask holds the caller's idx and nothing else. -/
theorem split_initialises (w : World) (self : Nat) (a : SplitArgs) :
    split_slot w self = ⟨self, (w.threads self).splitPointsSize⟩ ∧
    ((split_init w self a).sp (split_slot w self)).alpha = a.alpha ∧
    ((split_init w self a).sp (split_slot w self)).beta = a.beta ∧
    ((split_init w self a).sp (split_slot w self)).depth = a.depth ∧
    ((split_init w self a).sp (split_slot w self)).nodeType = a.nodeType ∧
    ((split_init w self a).sp (split_slot w self)).cutNode = a.cutNode ∧
    ((split_init w self a).sp (split_slot w self)).movePicker = a.movePicker ∧
    ((split_init w self a).sp (split_slot w self)).moveCount = a.moveCount ∧
    ((split_init w self a).sp (split_slot w self)).bestValue = a.bestValue ∧
    ((split_init w self a).sp (split_slot w self)).bestMove = a.bestMove ∧
    ((split_init w self a).sp (split_slot w self)).cutoff = false ∧
    ((split_init w self a).sp (split_slot w self)).nodes = 0 ∧
    ((split_init w self a).sp (split_slot w self)).masterThread = self ∧
    ((split_init w self a).sp (split_slot w self)).parentSplitPoint =
      (w.threads self).activeSplitPoint ∧
    (∀ i, ((split_init w self a).sp (split_slot w self)).slavesMask.test i = true ↔
      i = (w.threads self).idx) := by
  refine ⟨rfl, ?_, ?_, ?_, ?_, ?_, ?_, ?_, ?_, ?_, ?_, ?_, ?_, ?_, split_sp_mask w self a⟩ <;>
    simp [split_init]

/-- C5. After the setup step of `split` the master's splitPointsSize is one more
than at entry, its activeSplitPoint is the split point just initialised, its
activePosition is null, and its idx and searching flag are as at entry; for a
master that is searching at entry (as `split` asserts) the same holds when the
recruitment is over and the master is about to enter its idle loop. -/
theorem split_setup_master (w : World) (self : Nat) (a : SplitArgs) :
    (((split_setup (split_init w self a) self (split_slot w self)).threads self).splitPointsSize
        = (w.threads self).splitPointsSize + 1 ∧
      ((split_setup (split_init w self a) self (split_slot w self)).threads self).activeSplitPoint
        = some (split_slot w self) ∧
      (split_setup (split_init w self a) self (split_slot w self)).sp (split_slot w self)
        = { (split_init w self a).sp (split_slot w self) with allSlavesSearching := true } ∧
      ((split_setup (split_init w self a) self (split_slot w self)).threads self).activePosition
        = none ∧
      ((split_setup (split_init w self a) self (split_slot w self)).threads self).idx
        = (w.threads self).idx ∧
      ((split_setup (split_init w self a) self (split_slot w self)).threads self).searching
        = (w.threads self).searching) ∧
    (∀ Fake : Bool, (w.threads self).searching = true →
      ∃ w1 l, split_enter Fake w self a = some (w1, l) ∧
        (w1.threads self).splitPointsSize = (w.threads self).splitPointsSize + 1 ∧
        (w1.threads self).activeSplitPoint = some (split_slot w self) ∧
        (w1.threads self).activePosition = none ∧
        (w1.threads self).idx = (w.threads self).idx ∧
        (w1.threads self).searching = (w.threads self).searching) := by
  have hset := split_setup_threads_self w self a
  refine ⟨⟨by rw [hset], by rw [hset], split_setup_sp w self a, by rw [hset], by rw [hset],
    by rw [hset]⟩, ?_⟩
  intro Fake hsearch
  cases Fake with
  | true =>
    refine ⟨_, _, split_enter_fake w self a, ?_⟩
    rw [hset]
    exact ⟨rfl, rfl, rfl, rfl, rfl⟩
  | false =>
    obtain ⟨w1, l, h1, inv⟩ := split_enter_recruit w self a
    have hnot : self ∉ l := by
      intro hmem
      have := (inv.recruited self hmem).2.1
      rw [hset] at this
      simp [hsearch] at this
    obtain ⟨f1, f2⟩ := inv.frame self hnot
    refine ⟨w1, l, h1, ?_, ?_, ?_, ?_, ?_⟩
    · rw [inv.spsize_eq, hset]
    · rw [f2, hset]
    · rw [(inv.other_eq self).2.2, hset]
    · rw [inv.idx_eq, hset]
    · rw [f1, hset]

/-- C6. In non-Fake mode the recruitment of `split` ends, and when it ends every
recruited thread has its idx in the slavesMask of the new split point, has that
split point as activeSplitPoint and is searching; the slavesMask holds no idx
but the master's and those of the recruited threads. -/
theorem split_recruits (w : World) (self : Nat) (a : SplitArgs) :
    ∃ w1 l, split_enter false w self a = some (w1, l) ∧
      (∀ s, s ∈ l →
        (w1.sp (split_slot w self)).slavesMask.test (w1.threads s).idx = true ∧
        (w1.threads s).activeSplitPoint = some (split_slot w self) ∧
        (w1.threads s).searching = true) ∧
      (∀ i, (w1.sp (split_slot w self)).slavesMask.test i = true →
        i = (w1.threads self).idx ∨ ∃ s, s ∈ l ∧ (w1.threads s).idx = i) := by
  obtain ⟨w1, l, h1, inv⟩ := split_enter_recruit w self a
  refine ⟨w1, l, h1, ?_, ?_⟩
  · intro s hs
    obtain ⟨_, _, h3, h4⟩ := inv.recruited s hs
    refine ⟨?_, h4, h3⟩
    rw [inv.mask]
    exact Or.inr ⟨s, hs, (inv.idx_eq s).symm⟩
  · intro i hi
    rcases (inv.mask i).1 hi with h | ⟨s, hs, hsi⟩
    · left
      rw [split_setup_sp] at h
      rw [inv.idx_eq, split_setup_threads_self]
      exact (split_sp_mask w self a i).1 h
    · right
      exact ⟨s, hs, by rw [inv.idx_eq]; exact hsi⟩

/-- C7. In Fake mode, and in non-Fake mode when no other thread of the pool is
available to the master, `split` still creates the split point, with the master
as its sole participant (the slavesMask holds the master's idx and nothing
else), and leaves the searching flag, the activeSplitPoint and the
splitPointsSize of every other thread as they were. -/
theorem split_sole_participant (Fake : Bool) (w : World) (self : Nat) (a : SplitArgs)
    (h : Fake = true ∨
      ∀ k, k < w.size → k ≠ self → (w.threads k).available_to (w.threads self) = false) :
    ∃ w1 l, split_enter Fake w self a = some (w1, l) ∧
      w1.sp (split_slot w self) =
        { (split_init w self a).sp (split_slot w self) with
          allSlavesSearching := true
          slavesMask := (w1.sp (split_slot w self)).slavesMask } ∧
      (w1.sp (split_slot w self)).masterThread = self ∧
      (∀ i, (w1.sp (split_slot w self)).slavesMask.test i = true ↔
        i = (w.threads self).idx) ∧
      (∀ p, p ≠ self →
        (w1.threads p).searching = (w.threads p).searching ∧
        (w1.threads p).activeSplitPoint = (w.threads p).activeSplitPoint ∧
        (w1.threads p).splitPointsSize = (w.threads p).splitPointsSize) := by
  have hfake : ∃ w1 l, split_enter true w self a = some (w1, l) ∧
      w1.sp (split_slot w self) =
        { (split_init w self a).sp (split_slot w self) with
          allSlavesSearching := true
          slavesMask := (w1.sp (split_slot w self)).slavesMask } ∧
      (w1.sp (split_slot w self)).masterThread = self ∧
      (∀ i, (w1.sp (split_slot w self)).slavesMask.test i = true ↔
        i = (w.threads self).idx) ∧
      (∀ p, p ≠ self →
        (w1.threads p).searching = (w.threads p).searching ∧
        (w1.threads p).activeSplitPoint = (w.threads p).activeSplitPoint ∧
        (w1.threads p).splitPointsSize = (w.threads p).splitPointsSize) := by
    refine ⟨_, _, split_enter_fake w self a, ?_, ?_, ?_, ?_⟩
    · rw [split_setup_sp]; rfl
    · rw [split_setup_sp]; simp [split_sp, split_init]
    · intro i
      rw [split_setup_sp]
      exact split_sp_mask w self a i
    · intro p hp
      rw [split_setup_threads_ne w self a p hp]
      exact ⟨rfl, rfl, rfl⟩
  cases Fake with
  | true => exact hfake
  | false =>
    have hno : ∀ k, k < w.size → k ≠ self →
        (w.threads k).available_to (w.threads self) = false := by
      rcases h with h | h
      · cases h
      · exact h
    obtain ⟨w1, l, h1, inv⟩ := split_enter_recruit w self a
    have hself : ∀ p, p ∈ l → p = self := by
      intro p hp
      by_contra hne
      have hav := inv.available p hp hne
      have hlt := (inv.recruited p hp).1
      rw [split_setup_size] at hlt
      have hfalse := hno p hlt hne
      rw [available_to_congr _ (w.threads p) _ (w.threads self)
        (by rw [split_setup_threads_ne w self a p hne])
        (by rw [split_setup_threads_ne w self a p hne])
        (by rw [split_setup_threads_ne w self a p hne])
        (by rw [split_setup_threads_self])] at hav
      rw [hfalse] at hav
      cases hav
    refine ⟨w1, l, h1, ?_, ?_, ?_, ?_⟩
    · rw [inv.sp_eq, split_setup_sp]; rfl
    · rw [inv.sp_eq, split_setup_sp]; simp [split_sp, split_init]
    · intro i
      rw [inv.mask, split_setup_sp]
      constructor
      · rintro (hi | ⟨p, hp, hpi⟩)
        · exact (split_sp_mask w self a i).1 hi
        · rw [hself p hp, split_setup_threads_self] at hpi
          exact hpi.symm
      · intro hi
        exact Or.inl ((split_sp_mask w self a i).2 hi)
    · intro p hp
      have hnot : p ∉ l := fun hmem => hp (hself p hmem)
      obtain ⟨f1, f2⟩ := inv.frame p hnot
      rw [f1, f2, inv.spsize_eq, split_setup_threads_ne w self a p hp]
      exact ⟨rfl, rfl, rfl⟩

theorem split_finish_spec (w : World) (self : Nat) (slot : Int) (a : SplitArgs) :
    ((split_finish w self ⟨self, slot⟩ a).world.threads self).splitPointsSize
        = (w.threads self).splitPointsSize - 1 ∧
    ((split_finish w self ⟨self, slot⟩ a).world.threads self).activeSplitPoint
        = (w.sp ⟨self, slot⟩).parentSplitPoint ∧
    ((split_finish w self ⟨self, slot⟩ a).world.threads self).searching = true ∧
    ((split_finish w self ⟨self, slot⟩ a).world.threads self).activePosition = some a.pos ∧
    ((split_finish w self ⟨self, slot⟩ a).world.positions a.pos).nodes
        = (w.positions a.pos).nodes + (w.sp ⟨self, slot⟩).nodes ∧
    (split_finish w self ⟨self, slot⟩ a).bestValue = (w.sp ⟨self, slot⟩).bestValue ∧
    (split_finish w self ⟨self, slot⟩ a).bestMove = (w.sp ⟨self, slot⟩).bestMove := by
  simp [split_finish, World.sp, threads_setThread, World.setThread]

/-- C8. When `split` returns, given that the idle loop in between has left the
master's splitPointsSize and the parentSplitPoint of the split point as they
were: the master's splitPointsSize and activeSplitPoint are those at entry,
searching is true, activePosition is the caller's position, the node counter of
the position is the one read at the merge plus the nodes accumulated in the
split point (the one at entry plus these nodes when the idle loop has left the
counter alone), and the values handed back through the two pointers are the
final bestValue and bestMove of the split point. -/
theorem split_returns (Fake : Bool) (idle_loop : Nat → World → World) (w : World)
    (self : Nat) (a : SplitArgs)
    (hsize : ∀ w1 l, split_enter Fake w self a = some (w1, l) →
      ((idle_loop self w1).threads self).splitPointsSize = (w1.threads self).splitPointsSize)
    (hparent : ∀ w1 l, split_enter Fake w self a = some (w1, l) →
      ((idle_loop self w1).sp (split_slot w self)).parentSplitPoint
        = (w1.sp (split_slot w self)).parentSplitPoint) :
    ∃ w1 l res, split_enter Fake w self a = some (w1, l) ∧
      split Fake idle_loop w self a = some res ∧
      (res.world.threads self).splitPointsSize = (w.threads self).splitPointsSize ∧
      (res.world.threads self).activeSplitPoint = (w.threads self).activeSplitPoint ∧
      (res.world.threads self).searching = true ∧
      (res.world.threads self).activePosition = some a.pos ∧
      (res.world.positions a.pos).nodes =
        ((idle_loop self w1).positions a.pos).nodes
          + ((idle_loop self w1).sp (split_slot w self)).nodes ∧
      ((idle_loop self w1).positions a.pos = w1.positions a.pos →
        (res.world.positions a.pos).nodes =
          (w.positions a.pos).nodes + ((idle_loop self w1).sp (split_slot w self)).nodes) ∧
      res.bestValue = ((idle_loop self w1).sp (split_slot w self)).bestValue ∧
      res.bestMove = ((idle_loop self w1).sp (split_slot w self)).bestMove := by
  have key : ∃ w1 l, split_enter Fake w self a = some (w1, l) ∧
      (w1.threads self).splitPointsSize = (w.threads self).splitPointsSize + 1 ∧
      (w1.sp (split_slot w self)).parentSplitPoint = (w.threads self).activeSplitPoint ∧
      w1.positions = w.positions := by
    cases Fake with
    | true =>
      refine ⟨_, _, split_enter_fake w self a, ?_, ?_, rfl⟩
      · rw [split_setup_threads_self]
      · rw [split_setup_sp]; simp [split_sp, split_init]
    | false =>
      obtain ⟨w1, l, h1, inv⟩ := split_enter_recruit w self a
      refine ⟨w1, l, h1, ?_, ?_, ?_⟩
      · rw [inv.spsize_eq, split_setup_threads_self]
      · rw [inv.sp_eq, split_setup_sp]; simp [split_sp, split_init]
      · rw [inv.positions_eq]; rfl
  obtain ⟨w1, l, h1, k1, k2, k3⟩ := key
  have hs := hsize w1 l h1
  have hp := hparent w1 l h1
  obtain ⟨s1, s2, s3, s4, s5, s6, s7⟩ :=
    split_finish_spec (idle_loop self w1) self (w.threads self).splitPointsSize a
  refine ⟨w1, l, split_finish (idle_loop self w1) self (split_slot w self) a, h1, ?_,
    ?_, ?_, s3, s4, s5, ?_, s6, s7⟩
  · simp [split, h1]
  · show ((split_finish (idle_loop self w1) self
      ⟨self, (w.threads self).splitPointsSize⟩ a).world.threads self).splitPointsSize = _
    rw [s1, hs, k1]
    omega
  · show ((split_finish (idle_loop self w1) self
      ⟨self, (w.threads self).splitPointsSize⟩ a).world.threads self).activeSplitPoint = _
    rw [s2]
    exact hp.trans k2
  · intro hpos
    show ((split_finish (idle_loop self w1) self
      ⟨self, (w.threads self).splitPointsSize⟩ a).world.positions a.pos).nodes = _
    rw [s5, hpos, k3]
    rfl

/-- C9, as stated, fails: arguments that meet the assertions of `split` (here
bestValue 5, alpha 10, beta 20) create a split point whose alpha exceeds its
bestValue. -/
theorem split_alpha_le_bestValue_fails :
    split_asserts 32001 8 exWorld 0 exArgs ∧
    ¬ ((split_init exWorld 0 exArgs).sp (split_slot exWorld 0)).alpha
        ≤ ((split_init exWorld 0 exArgs).sp (split_slot exWorld 0)).bestValue := by
  decide

/-- C9, amended. The split point that `split` creates from arguments meeting its
asserted precondition satisfies bestValue ≤ alpha < beta, within the infinite
bounds; alpha ≤ bestValue holds for it exactly when the caller's bestValue
equals alpha. -/
theorem split_creates_window (V : Value) (M : Int) (w : World) (self : Nat) (a : SplitArgs)
    (h : split_asserts V M w self a) :
    -V < ((split_init w self a).sp (split_slot w self)).bestValue ∧
    ((split_init w self a).sp (split_slot w self)).bestValue
      ≤ ((split_init w self a).sp (split_slot w self)).alpha ∧
    ((split_init w self a).sp (split_slot w self)).alpha
      < ((split_init w self a).sp (split_slot w self)).beta ∧
    ((split_init w self a).sp (split_slot w self)).beta ≤ V ∧
    (((split_init w self a).sp (split_slot w self)).alpha
        ≤ ((split_init w self a).sp (split_slot w self)).bestValue ↔
      a.bestValue = a.alpha) := by
  obtain ⟨⟨h1, h2, h3, h4⟩, _⟩ := h
  simp only [split_init, setSP_sp_same]
  refine ⟨h1, h2, h3, h4, ?_⟩
  constructor
  · intro h5; exact le_antisymm h2 h5
  · intro h5; exact le_of_eq h5.symm

/-- An instance of `split_creates_window` for bestValue 5, alpha 10, beta 20. -/
theorem split_creates_window_witness :
    split_asserts 32001 8 exWorld 0 exArgs ∧
    (-32001 < ((split_init exWorld 0 exArgs).sp (split_slot exWorld 0)).bestValue ∧
    ((split_init exWorld 0 exArgs).sp (split_slot exWorld 0)).bestValue
      ≤ ((split_init exWorld 0 exArgs).sp (split_slot exWorld 0)).alpha ∧
    ((split_init exWorld 0 exArgs).sp (split_slot exWorld 0)).alpha
      < ((split_init exWorld 0 exArgs).sp (split_slot exWorld 0)).beta ∧
    ((split_init exWorld 0 exArgs).sp (split_slot exWorld 0)).beta ≤ 32001 ∧
    (((split_init exWorld 0 exArgs).sp (split_slot exWorld 0)).alpha
        ≤ ((split_init exWorld 0 exArgs).sp (split_slot exWorld 0)).bestValue ↔
      exArgs.bestValue = exArgs.alpha)) :=
  ⟨by decide, split_creates_window 32001 8 exWorld 0 exArgs (by decide)⟩

theorem grow_loop_spec (requested : Nat) :
    ∀ (fuel : Nat) (w : World), requested - w.size ≤ fuel →
      ∃ w1, grow_loop requested fuel w = some w1 ∧
        w1.size = max w.size requested ∧
        (∀ i, i < w.size → w1.threads i = w.threads i) ∧
        (∀ i, w.size ≤ i → i < requested → w1.threads i = { idx := i }) ∧
        w1.joined = w.joined ∧
        w1.minimumSplitDepth = w.minimumSplitDepth := by
  intro fuel
  induction fuel with
  | zero =>
    intro w hw
    have hge : ¬ w.size < requested := by omega
    refine ⟨w, by simp [grow_loop, hge], by omega, fun _ _ => rfl, ?_, rfl, rfl⟩
    intro i h1 h2; omega
  | succ fuel ih =>
    intro w hw
    by_cases hlt : w.size < requested
    · obtain ⟨w1, h1, h2, h3, h4, h5, h6⟩ := ih (w.push_back (new_thread w))
        (by simp only [World.push_back]; omega)
      simp only [World.push_back] at h2 h3 h4 h5 h6
      refine ⟨w1, by simp [grow_loop, hlt, h1], by omega, ?_, ?_, h5, h6⟩
      · intro i hi
        rw [h3 i (by omega), Function.update_noteq (by omega)]
      · intro i hi1 hi2
        by_cases hi : i = w.size
        · subst hi
          rw [h3 _ (by omega), Function.update_same]
          rfl
        · exact h4 i (by omega) hi2
    · refine ⟨w, by simp [grow_loop, hlt], by omega, fun _ _ => rfl, ?_, rfl, rfl⟩
      intro i h1 h2; omega

theorem shrink_loop_spec (requested : Nat) :
    ∀ (fuel : Nat) (w : World), w.size - requested ≤ fuel →
      ∃ w1, shrink_loop requested fuel w = some w1 ∧
        w1.size = min w.size requested ∧
        (∀ i, i < requested → w1.threads i = w.threads i) ∧
        w1.joined = w.joined ++ joined_by_shrink w requested ∧
        w1.minimumSplitDepth = w.minimumSplitDepth := by
  intro fuel
  induction fuel with
  | zero =>
    intro w hw
    have hge : ¬ w.size > requested := by omega
    have h0 : w.size - requested = 0 := by omega
    exact ⟨w, by simp [shrink_loop, hge], by omega, fun _ _ => rfl,
      by simp [joined_by_shrink, h0], rfl⟩
  | succ fuel ih =>
    intro w hw
    by_cases hgt : w.size > requested
    · obtain ⟨w1, h1, h2, h3, h4, h5⟩ := ih (delete_thread w (w.size - 1)).pop_back
        (by simp only [World.pop_back, delete_thread, setThread_size]; omega)
      have hsz : (delete_thread w (w.size - 1)).pop_back.size = w.size - 1 := rfl
      have hth : ∀ i, i ≠ w.size - 1 →
          (delete_thread w (w.size - 1)).pop_back.threads i = w.threads i := by
        intro i hi
        simp only [World.pop_back, delete_thread]
        exact setThread_threads_ne _ _ _ _ hi
      have hj : (delete_thread w (w.size - 1)).pop_back.joined =
          w.joined ++ [Joined.worker { w.threads (w.size - 1) with exit := true }] := by
        simp [World.pop_back, delete_thread, World.setThread]
      refine ⟨w1, by simp [shrink_loop, hgt, h1], by rw [h2, hsz]; omega, ?_, ?_, ?_⟩
      · intro i hi
        rw [h3 i hi, hth i (by omega)]
      · rw [h4, hj, List.append_assoc]
        congr 1
        have hn : w.size - requested = (w.size - 1 - requested) + 1 := by omega
        simp only [joined_by_shrink, hsz]
        rw [hn, List.range_succ_eq_map, List.map_cons, List.map_map]
        simp only [List.singleton_append, Nat.sub_zero, List.cons.injEq, true_and]
        apply List.map_congr_left
        intro k hk
        have hk2 : k < w.size - 1 - requested := List.mem_range.1 hk
        simp only [Function.comp]
        rw [hth _ (by omega)]
        have hidx : w.size - 1 - 1 - k = w.size - 1 - k.succ := by omega
        rw [hidx]
      · rw [h5]; rfl
    · have h0 : w.size - requested = 0 := by omega
      exact ⟨w, by simp [shrink_loop, hgt], by omega, fun _ _ => rfl,
        by simp [joined_by_shrink, h0], rfl⟩

/-- C10. For a requested count `n ≥ 1`, `read_uci_options` returns with exactly
`n` threads in the pool. When the pool shrinks, the first `n` threads are the
objects they were, in the same order, and the others are joined from the back,
the last thread first; when it grows, the threads it had are the first ones of
the new pool, unchanged, and no thread is joined. The thread at index 0 of a
non-empty pool stays where it is. -/
theorem read_uci_options_resizes (ONE_PLY opt : Int) (n : Nat) (w : World) (hn : 1 ≤ n) :
    ∃ w1, read_uci_options ONE_PLY opt n w = some w1 ∧
      w1.size = n ∧
      (n ≤ w.size →
        (∀ i, i < n → w1.threads i = w.threads i) ∧
        w1.joined = w.joined ++ joined_by_shrink w n) ∧
      (w.size ≤ n →
        (∀ i, i < w.size → w1.threads i = w.threads i) ∧ w1.joined = w.joined) ∧
      (0 < w.size → w1.threads 0 = w.threads 0) := by
  obtain ⟨w2, g1, g2, g3, g4, g5, g6⟩ := grow_loop_spec n (w.size + n)
    { w with
      minimumSplitDepth :=
        if opt * ONE_PLY = 0 then (if n < 8 then 4 * ONE_PLY else 7 * ONE_PLY)
        else opt * ONE_PLY } (by simp only []; omega)
  obtain ⟨w1, s1, s2, s3, s4, s5⟩ := shrink_loop_spec n (w.size + n) w2
    (by rw [g2]; simp only []; omega)
  simp only [] at g2 g3 g4 g5
  have hread : read_uci_options ONE_PLY opt n w = some w1 := by
    simp only [read_uci_options, g1, s1]
  refine ⟨w1, hread, by rw [s2, g2]; omega, ?_, ?_, ?_⟩
  · intro hle
    refine ⟨fun i hi => by rw [s3 i hi, g3 i (by omega)], ?_⟩
    rw [s4, g5]
    congr 1
    simp only [joined_by_shrink, g2, max_eq_left hle]
    apply List.map_congr_left
    intro k hk
    have hk2 : k < w.size - n := List.mem_range.1 hk
    rw [g3 _ (by omega)]
  · intro hle
    refine ⟨fun i hi => by rw [s3 i (by omega), g3 i hi], ?_⟩
    rw [s4, g5]
    simp [joined_by_shrink, g2, max_eq_right hle]
  · intro hpos
    rw [s3 0 (by omega), g3 0 hpos]

/-! ## Instances of the theorems on the example states -/

/-- An instance of `cutoff_occurred_iff` on a chain of two split points. -/
theorem cutoff_occurred_iff_witness :
    nthAncestor chainWorld 2 (chainWorld.threads 0).activeSplitPoint = none ∧ 2 ≤ 2 ∧
    ((∃ b, (chainWorld.threads 0).cutoff_occurred chainWorld 2 = some b ∧
      (b = true ↔
        ∃ k r, nthAncestor chainWorld k (chainWorld.threads 0).activeSplitPoint = some r ∧
          (chainWorld.sp r).cutoff = true)) ∧
    ((chainWorld.threads 0).activeSplitPoint = none →
      (chainWorld.threads 0).cutoff_occurred chainWorld 2 = some false)) :=
  ⟨by decide, by decide,
    cutoff_occurred_iff chainWorld (chainWorld.threads 0) 2 2 (by decide) (by decide)⟩

/-- An instance of `split_sole_participant` on a pool of searching threads. -/
theorem split_sole_participant_witness :
    (false = true ∨
      ∀ k, k < busyWorld.size → k ≠ 0 →
        (busyWorld.threads k).available_to (busyWorld.threads 0) = false) ∧
    ∃ w1 l, split_enter false busyWorld 0 exArgs = some (w1, l) ∧
      w1.sp (split_slot busyWorld 0) =
        { (split_init busyWorld 0 exArgs).sp (split_slot busyWorld 0) with
          allSlavesSearching := true
          slavesMask := (w1.sp (split_slot busyWorld 0)).slavesMask } ∧
      (w1.sp (split_slot busyWorld 0)).masterThread = 0 ∧
      (∀ i, (w1.sp (split_slot busyWorld 0)).slavesMask.test i = true ↔
        i = (busyWorld.threads 0).idx) ∧
      (∀ p, p ≠ 0 →
        (w1.threads p).searching = (busyWorld.threads p).searching ∧
        (w1.threads p).activeSplitPoint = (busyWorld.threads p).activeSplitPoint ∧
        (w1.threads p).splitPointsSize = (busyWorld.threads p).splitPointsSize) :=
  ⟨Or.inr (fun _ _ _ => rfl),
    split_sole_participant false busyWorld 0 exArgs (Or.inr (fun _ _ _ => rfl))⟩

theorem exIdleLoop_splitPointsSize (self : Nat) (w : World) :
    ((exIdleLoop self w).threads self).splitPointsSize = (w.threads self).splitPointsSize := by
  simp [exIdleLoop, threads_setThread, threads_setSP]

theorem exIdleLoop_parent (self : Nat) (w : World) (r : SPRef) :
    ((exIdleLoop self w).sp r).parentSplitPoint = (w.sp r).parentSplitPoint := by
  simp only [exIdleLoop, World.sp, threads_setThread, threads_setSP]
  by_cases h1 : r.owner = self
  · by_cases h2 : r.slot = 0
    · subst h1; simp [h2]
    · subst h1; simp [Function.update_noteq h2]
  · simp [h1]

/-- An instance of `split_returns` with the example idle loop. -/
theorem split_returns_witness :
    (∀ w1 l, split_enter false exWorld 0 exArgs = some (w1, l) →
      ((exIdleLoop 0 w1).threads 0).splitPointsSize = (w1.threads 0).splitPointsSize) ∧
    (∀ w1 l, split_enter false exWorld 0 exArgs = some (w1, l) →
      ((exIdleLoop 0 w1).sp (split_slot exWorld 0)).parentSplitPoint
        = (w1.sp (split_slot exWorld 0)).parentSplitPoint) ∧
    ∃ w1 l res, split_enter false exWorld 0 exArgs = some (w1, l) ∧
      split false exIdleLoop exWorld 0 exArgs = some res ∧
      (res.world.threads 0).splitPointsSize = (exWorld.threads 0).splitPointsSize ∧
      (res.world.threads 0).activeSplitPoint = (exWorld.threads 0).activeSplitPoint ∧
      (res.world.threads 0).searching = true ∧
      (res.world.threads 0).activePosition = some exArgs.pos ∧
      (res.world.positions exArgs.pos).nodes =
        ((exIdleLoop 0 w1).positions exArgs.pos).nodes
          + ((exIdleLoop 0 w1).sp (split_slot exWorld 0)).nodes ∧
      ((exIdleLoop 0 w1).positions exArgs.pos = w1.positions exArgs.pos →
        (res.world.positions exArgs.pos).nodes =
          (exWorld.positions exArgs.pos).nodes
            + ((exIdleLoop 0 w1).sp (split_slot exWorld 0)).nodes) ∧
      res.bestValue = ((exIdleLoop 0 w1).sp (split_slot exWorld 0)).bestValue ∧
      res.bestMove = ((exIdleLoop 0 w1).sp (split_slot exWorld 0)).bestMove :=
  ⟨fun w1 _ _ => exIdleLoop_splitPointsSize 0 w1,
    fun w1 _ _ => exIdleLoop_parent 0 w1 _,
    split_returns false exIdleLoop exWorld 0 exArgs
      (fun w1 _ _ => exIdleLoop_splitPointsSize 0 w1)
      (fun w1 _ _ => exIdleLoop_parent 0 w1 _)⟩

/-- An instance of `read_uci_options_resizes`: a pool of three shrunk to two. -/
theorem read_uci_options_resizes_witness :
    1 ≤ 2 ∧
    ∃ w1, read_uci_options 2 0 2 exWorld = some w1 ∧
      w1.size = 2 ∧
      (2 ≤ exWorld.size →
        (∀ i, i < 2 → w1.threads i = exWorld.threads i) ∧
        w1.joined = exWorld.joined ++ joined_by_shrink exWorld 2) ∧
      (exWorld.size ≤ 2 →
        (∀ i, i < exWorld.size → w1.threads i = exWorld.threads i) ∧
          w1.joined = exWorld.joined) ∧
      (0 < exWorld.size → w1.threads 0 = exWorld.threads 0) :=
  ⟨by decide, read_uci_options_resizes 2 0 2 exWorld (by decide)⟩

/-- The run of `split` on the example pool, with the example idle loop: thread 1
is recruited, and the caller gets back the values the idle loop has left in the
split point. -/
theorem split_example :
    (split_enter false exWorld 0 exArgs).map (fun x => x.2) = some [1] ∧
    (split false exIdleLoop exWorld 0 exArgs).map (fun res => (res.bestValue, res.bestMove,
      (res.world.positions 7).nodes, (res.world.threads 0).splitPointsSize,
      (res.world.threads 1).searching)) = some (15, 9, 100, 0, true) := by
  decide

/-! ## `ThreadPool::exit` -/

theorem delete_thread_joined (w : World) (th : Nat) :
    (delete_thread w th).joined =
      w.joined ++ [Joined.worker { w.threads th with exit := true }] := by
  simp [delete_thread, World.setThread]

theorem delete_thread_threads (w : World) (th p : Nat) :
    (delete_thread w th).threads p =
      if p = th then { w.threads th with exit := true } else w.threads p := by
  simp only [delete_thread]
  exact threads_setThread _ _ _ _

theorem exit_loop_spec (w : World) (n : Nat) :
    ((List.range n).foldl delete_thread w).joined =
        w.joined ++ (List.range n).map
          (fun p => Joined.worker { w.threads p with exit := true }) ∧
    (∀ p, ((List.range n).foldl delete_thread w).threads p =
        if p < n then { w.threads p with exit := true } else w.threads p) ∧
    ((List.range n).foldl delete_thread w).size = w.size ∧
    ((List.range n).foldl delete_thread w).timer = w.timer := by
  induction n with
  | zero => simp
  | succ n ih =>
    obtain ⟨h1, h2, h3, h4⟩ := ih
    rw [List.range_succ, List.foldl_append]
    simp only [List.foldl_cons, List.foldl_nil, List.map_append, List.map_cons, List.map_nil]
    refine ⟨?_, ?_, ?_, ?_⟩
    · rw [delete_thread_joined, h1, h2 n, if_neg (Nat.lt_irrefl n), List.append_assoc]
    · intro p
      rw [delete_thread_threads]
      by_cases hp : p = n
      · subst hp
        rw [if_pos rfl, h2 p, if_neg (Nat.lt_irrefl p), if_pos (Nat.lt_succ_self p)]
      · rw [if_neg hp, h2 p]
        by_cases hlt : p < n
        · rw [if_pos hlt, if_pos (by omega)]
        · rw [if_neg hlt, if_neg (by omega)]
    · exact h3
    · exact h4

/-- C11. With a timer in place, `ThreadPool::exit` returns; it sets the exit
flag of the timer and joins it before any worker, then sets the exit flag of
every worker of the pool and joins it, in pool order. So when it returns the
timer and every worker of the pool are among the joined threads: none remains
live. -/
theorem exit_joins_all (w : World) (t : TimerThread) (ht : w.timer = some t) :
    ∃ w1, w.exit = some w1 ∧
      w1.joined =
        w.joined ++ Joined.timer { t with exit := true } ::
          (List.range w.size).map (fun p => Joined.worker { w.threads p with exit := true }) ∧
      w1.timer = some { t with exit := true } ∧
      (∀ p, p < w.size → w1.threads p = { w.threads p with exit := true }) ∧
      Joined.timer { t with exit := true } ∈ w1.joined ∧
      (∀ p, p < w.size → Joined.worker (w1.threads p) ∈ w1.joined) := by
  obtain ⟨h1, h2, _, h4⟩ := exit_loop_spec
    { w with
      timer := some { t with exit := true }
      joined := w.joined ++ [Joined.timer { t with exit := true }] } w.size
  have hth : ∀ p, p < w.size →
      (exit_loop
        { w with
          timer := some { t with exit := true }
          joined := w.joined ++ [Joined.timer { t with exit := true }] }).threads p
        = { w.threads p with exit := true } := by
    intro p hp
    have := h2 p
    rw [if_pos hp] at this
    exact this
  have hj : (exit_loop
        { w with
          timer := some { t with exit := true }
          joined := w.joined ++ [Joined.timer { t with exit := true }] }).joined =
      w.joined ++ Joined.timer { t with exit := true } ::
          (List.range w.size).map (fun p => Joined.worker { w.threads p with exit := true }) := by
    show (List.foldl delete_thread _ (List.range w.size)).joined = _
    rw [h1]
    simp
  refine ⟨_, by simp only [World.exit, delete_timer, ht], hj, h4, hth, ?_, ?_⟩
  · rw [hj]
    simp
  · intro p hp
    rw [hj, hth p hp]
    apply List.mem_append_right
    apply List.mem_cons_of_mem
    exact List.mem_map.2 ⟨p, List.mem_range.2 hp, rfl⟩


/-! ## `ThreadPool::start_thinking` -/

theorem root_moves_loop (limits : LimitsType) (l : List Move) :
    ∀ s : SearchState,
      (l.foldl
        (fun acc m =>
          if root_move_wanted limits m then
            { acc with RootMoves := acc.RootMoves ++ [RootMove.mk m] }
          else acc) s) =
      { s with
        RootMoves := s.RootMoves ++ (l.filter (root_move_wanted limits)).map RootMove.mk } := by
  induction l with
  | nil => intro s; simp
  | cons m l ih =>
    intro s
    rw [List.foldl_cons, ih]
    by_cases hm : root_move_wanted limits m = true
    · simp [hm]
    · simp [hm]

theorem root_move_wanted_iff (limits : LimitsType) (m : Move) :
    root_move_wanted limits m = true ↔ (limits.searchmoves = [] ∨ m ∈ limits.searchmoves) := by
  simp [root_move_wanted, List.count_eq_zero, List.isEmpty_iff]

theorem start_thinking_eq (legal : Position → List Move) (now : Nat)
    (search : SearchState → SearchState) (s s1 : SearchState) (pos : Position)
    (limits : LimitsType) (states : Option Nat)
    (hwait : wait_for_think_finished search s = some s1) :
    ∃ s2, start_thinking legal now search s pos limits states = some (s2, none) ∧
      s2.Signals = { stopOnPonderhit := false, firstRootMove := false, stop := false,
                     failedLowAtRoot := false } ∧
      s2.RootMoves = ((legal pos).filter (root_move_wanted limits)).map RootMove.mk ∧
      s2.RootPos = pos ∧ s2.Limits = limits ∧ s2.main.thinking = true ∧
      s2.SearchTime = now ∧
      s2.SetupStates = (match states with | some st => some st | none => s1.SetupStates) := by
  simp only [start_thinking, hwait, root_moves_loop]
  cases states <;> exact ⟨_, rfl, rfl, by simp, rfl, rfl, rfl, rfl, rfl⟩

/-- C12. When the wait for the previous search ends, `start_thinking` returns,
and then the signals stop, stopOnPonderhit, failedLowAtRoot and firstRootMove
are all false whatever they were, RootPos and Limits are the arguments, and the
thinking flag of the main thread is true. -/
theorem start_thinking_resets (legal : Position → List Move) (now : Nat)
    (search : SearchState → SearchState) (s s1 : SearchState) (pos : Position)
    (limits : LimitsType) (states : Option Nat)
    (hwait : wait_for_think_finished search s = some s1) :
    ∃ s2 st, start_thinking legal now search s pos limits states = some (s2, st) ∧
      s2.Signals.stop = false ∧ s2.Signals.stopOnPonderhit = false ∧
      s2.Signals.failedLowAtRoot = false ∧ s2.Signals.firstRootMove = false ∧
      s2.RootPos = pos ∧ s2.Limits = limits ∧ s2.main.thinking = true := by
  obtain ⟨s2, h, hsig, _, hpos, hlim, hth, _⟩ :=
    start_thinking_eq legal now search s s1 pos limits states hwait
  exact ⟨s2, none, h, by rw [hsig], by rw [hsig], by rw [hsig], by rw [hsig], hpos, hlim, hth⟩

/-- C13. When the wait for the previous search ends, `start_thinking` returns
with RootMoves, whatever it held, equal to the legal moves of the position in
generation order, restricted to those that occur in `searchmoves`, or to all of
them when `searchmoves` is empty. Hence every root move is legal, a move occurs
in RootMoves as often as among the legal moves when it is wanted (once, for a
generator without repetitions, however often `searchmoves` lists it), and a
non-empty `searchmoves` without a legal move gives an empty RootMoves. -/
theorem start_thinking_root_moves (legal : Position → List Move) (now : Nat)
    (search : SearchState → SearchState) (s s1 : SearchState) (pos : Position)
    (limits : LimitsType) (states : Option Nat)
    (hwait : wait_for_think_finished search s = some s1) :
    ∃ s2 st, start_thinking legal now search s pos limits states = some (s2, st) ∧
      s2.RootMoves =
        ((legal pos).filter
          (fun m => decide (limits.searchmoves = [] ∨ m ∈ limits.searchmoves))).map
          RootMove.mk ∧
      (limits.searchmoves = [] → s2.RootMoves = (legal pos).map RootMove.mk) ∧
      (∀ rm, rm ∈ s2.RootMoves → rm.move ∈ legal pos) ∧
      (∀ m, m ∈ limits.searchmoves →
        List.count (RootMove.mk m) s2.RootMoves = List.count m (legal pos)) ∧
      ((legal pos).Nodup → s2.RootMoves.Nodup) ∧
      (limits.searchmoves ≠ [] → (∀ m, m ∈ limits.searchmoves → m ∉ legal pos) →
        s2.RootMoves = []) := by
  obtain ⟨s2, h, _, hrm, _⟩ :=
    start_thinking_eq legal now search s s1 pos limits states hwait
  have hfilter : (legal pos).filter (root_move_wanted limits) =
      (legal pos).filter
        (fun m => decide (limits.searchmoves = [] ∨ m ∈ limits.searchmoves)) := by
    apply List.filter_congr
    intro m _
    rw [Bool.eq_iff_iff, root_move_wanted_iff]
    simp
  have hinj : Function.Injective RootMove.mk := by
    intro a b hab
    cases hab
    rfl
  refine ⟨s2, none, h, by rw [hrm, hfilter], ?_, ?_, ?_, ?_, ?_⟩
  · intro hempty
    rw [hrm]
    congr 1
    apply List.filter_eq_self.2
    intro m _
    exact (root_move_wanted_iff limits m).2 (Or.inl hempty)
  · intro rm hmem
    rw [hrm] at hmem
    obtain ⟨m, hm, rfl⟩ := List.mem_map.1 hmem
    exact (List.mem_filter.1 hm).1
  · intro m hm
    rw [hrm, List.count_map_of_injective _ _ hinj, List.count_filter]
    exact (root_move_wanted_iff limits m).2 (Or.inr hm)
  · intro hnd
    rw [hrm]
    exact (hnd.filter _).map hinj
  · intro hne hnone
    rw [hrm]
    have : (legal pos).filter (root_move_wanted limits) = [] := by
      apply List.filter_eq_nil_iff.2
      intro m hm hw
      rcases (root_move_wanted_iff limits m).1 hw with h1 | h1
      · exact hne h1
      · exact hnone m h1 hm
    rw [this]
    rfl


/-! ## Two masters in a row -/

theorem split_setup_searching (w : World) (self : Nat) (a : SplitArgs) (p : Nat) :
    ((split_setup (split_init w self a) self (split_slot w self)).threads p).searching =
      (w.threads p).searching := by
  by_cases hp : p = self
  · subst hp
    rw [split_setup_threads_self]
  · rw [split_setup_threads_ne w self a p hp]

/-- C14. When master A runs the setup and recruitment of `split` and then master
B does, with nothing in between, both recruitments end and no thread is
recruited by both: every thread recruited by A is searching when B starts, is
not available to B, and is not among the threads recruited by B. -/
theorem split_twice_disjoint (w : World) (A B : Nat) (aA aB : SplitArgs) :
    ∃ w1 lA w2 lB, split_enter false w A aA = some (w1, lA) ∧
      split_enter false w1 B aB = some (w2, lB) ∧
      ∀ p, p ∈ lA →
        (w1.threads p).searching = true ∧
        (w1.threads p).available_to (w1.threads B) = false ∧
        p ∉ lB := by
  obtain ⟨w1, lA, h1, invA⟩ := split_enter_recruit w A aA
  obtain ⟨w2, lB, h2, invB⟩ := split_enter_recruit w1 B aB
  refine ⟨w1, lA, w2, lB, h1, h2, ?_⟩
  intro p hp
  have hs : (w1.threads p).searching = true := (invA.recruited p hp).2.2.1
  refine ⟨hs, ?_, ?_⟩
  · cases hav : (w1.threads p).available_to (w1.threads B) with
    | false => rfl
    | true =>
      have := available_to_searching _ _ hav
      rw [hs] at this
      cases this
  · intro hmem
    have := (invB.recruited p hmem).2.1
    rw [split_setup_searching, hs] at this
    cases this

/-! ## Lock order of `split` -/

theorem lock_order_ok_notify (l : List Nat) (rest : List LockOp) (ph sh : Bool) :
    lock_order_ok ph sh (notify_ops l ++ rest) = lock_order_ok ph sh rest := by
  induction l with
  | nil => rfl
  | cons s l ih => simpa [notify_ops, lock_order_ok] using ih

theorem filter_notify_ops (l : List Nat) : (notify_ops l).filter on_pool_or_sp = [] := by
  induction l with
  | nil => rfl
  | cons s l ih => simpa [notify_ops, on_pool_or_sp] using ih

theorem split_enter_some (Fake : Bool) (w : World) (self : Nat) (a : SplitArgs) :
    ∃ w1 l, split_enter Fake w self a = some (w1, l) := by
  cases Fake with
  | true => exact ⟨_, _, split_enter_fake w self a⟩
  | false =>
    obtain ⟨w1, l, h, _⟩ := split_enter_recruit w self a
    exact ⟨w1, l, h⟩

/-- C15. The lock operations of `split` keep the lock order: a split point mutex
is acquired only while the pool mutex is held by the call, and the pool mutex is
released only after the split point mutex. The operations on the two mutexes
are, in order, lock pool, lock split point, unlock split point, unlock pool for
the setup and recruitment, and the same four for the final merge. -/
theorem split_lock_order (Fake : Bool) (w : World) (self : Nat) (a : SplitArgs) :
    ∃ ops, split_lock_ops Fake w self a = some ops ∧
      lock_order_ok false false ops = true ∧
      ops.filter on_pool_or_sp =
        [LockOp.lock Mutex.pool, LockOp.lock (Mutex.sp (split_slot w self)),
         LockOp.unlock (Mutex.sp (split_slot w self)), LockOp.unlock Mutex.pool,
         LockOp.lock Mutex.pool, LockOp.lock (Mutex.sp (split_slot w self)),
         LockOp.unlock (Mutex.sp (split_slot w self)), LockOp.unlock Mutex.pool] := by
  obtain ⟨w1, l, h⟩ := split_enter_some Fake w self a
  have hops : split_lock_ops Fake w self a =
      some (LockOp.lock Mutex.pool :: LockOp.lock (Mutex.sp (split_slot w self)) ::
        (notify_ops l ++
          [LockOp.unlock (Mutex.sp (split_slot w self)), LockOp.unlock Mutex.pool,
           LockOp.lock Mutex.pool, LockOp.lock (Mutex.sp (split_slot w self)),
           LockOp.unlock (Mutex.sp (split_slot w self)), LockOp.unlock Mutex.pool])) := by
    simp [split_lock_ops, h]
  refine ⟨_, hops, ?_, ?_⟩
  · rw [lock_order_ok, lock_order_ok, lock_order_ok_notify]
    rfl
  · rw [List.filter_cons_of_pos rfl, List.filter_cons_of_pos rfl, List.filter_append,
      filter_notify_ops]
    rfl

/-! ## `MainThread::idle_loop` -/

theorem main_inv_step (think : MainThread → MainThread) (wake : MainThread → MainThread)
    (hwake : ∀ m, (wake m).searching = m.searching) (c : MainCfg) (h : main_inv c) :
    main_inv (idle_step think wake c) := by
  obtain ⟨pc, m⟩ := c
  cases pc with
  | top => exact h
  | test =>
    by_cases hc : (!m.thinking && !m.exit) = true
    · simp only [idle_step, hc, if_true]
      exact h
    · simp only [idle_step, hc, if_false]
      exact h
  | parked =>
    show (wake m).searching = false
    rw [hwake]
    exact h
  | woken =>
    by_cases hc : m.exit = true
    · simp only [idle_step, hc, if_true]
      exact h
    · simp only [idle_step, hc, if_false]
      rfl
  | think => trivial
  | afterThink => rfl
  | returned => exact h

theorem main_inv_run (think : MainThread → MainThread) (wakes : Nat → MainThread → MainThread)
    (hwake : ∀ k m, (wakes k m).searching = m.searching) (c : MainCfg) (h : main_inv c) :
    ∀ n, main_inv (idle_run think wakes n c) := by
  intro n
  induction n with
  | zero => exact h
  | succ n ih => exact main_inv_step think (wakes n) (hwake n) _ ih

theorem idle_run_returned (think : MainThread → MainThread)
    (wakes : Nat → MainThread → MainThread) (c : MainCfg) (hpc : c.pc = MainPC.woken)
    (hexit : c.m.exit = true) :
    ∀ n, (idle_run think wakes (n + 1) c).pc = MainPC.returned ∧
      (idle_run think wakes (n + 1) c).m = c.m := by
  intro n
  induction n with
  | zero =>
    obtain ⟨pc, m⟩ := c
    simp only at hpc hexit
    subst hpc
    simp [idle_run, idle_step, hexit]
  | succ n ih =>
    obtain ⟨h1, h2⟩ := ih
    have hstep : idle_run think wakes (n + 1 + 1) c =
        idle_step think (wakes (n + 1)) (idle_run think wakes (n + 1) c) := rfl
    rw [hstep]
    generalize idle_run think wakes (n + 1) c = d at h1 h2
    obtain ⟨pc, m⟩ := d
    simp only at h1 h2
    subst h1
    exact ⟨rfl, h2⟩

/-- C16. In `MainThread::idle_loop`: a thread that leaves its wait with the exit
flag set returns, and `Search::think` is not called, whatever `thinking` is; a
thread that leaves it with `thinking` set and `exit` clear calls `Search::think`
with `searching` true, and when it reaches the test of the wait again, without
having parked in between, `searching` and `thinking` are false. From the start
of the loop with `searching` false, `searching` is false whenever the thread is
parked, as long as the other threads leave the flag alone while it waits. -/
theorem main_idle_loop_protocol (think : MainThread → MainThread)
    (wakes : Nat → MainThread → MainThread) (c : MainCfg) :
    (c.pc = MainPC.woken → c.m.exit = true →
      ∀ n, (idle_run think wakes (n + 1) c).pc = MainPC.returned ∧
        (idle_run think wakes n c).pc ≠ MainPC.think) ∧
    (c.pc = MainPC.woken → c.m.thinking = true → c.m.exit = false →
      (idle_run think wakes 1 c).pc = MainPC.think ∧
      (idle_run think wakes 1 c).m = { c.m with searching := true } ∧
      (idle_run think wakes 1 c).m.searching = true ∧
      (idle_run think wakes 2 c).pc = MainPC.afterThink ∧
      (idle_run think wakes 2 c).m = think { c.m with searching := true } ∧
      (idle_run think wakes 3 c).pc = MainPC.top ∧
      (idle_run think wakes 4 c).pc = MainPC.test ∧
      (idle_run think wakes 4 c).m.searching = false ∧
      (idle_run think wakes 4 c).m.thinking = false ∧
      ((idle_run think wakes 5 c).pc = MainPC.parked →
        (idle_run think wakes 5 c).m.searching = false ∧
        (idle_run think wakes 5 c).m.thinking = false)) ∧
    (c.pc = MainPC.top → c.m.searching = false →
      (∀ k m, (wakes k m).searching = m.searching) →
      ∀ n, (idle_run think wakes n c).pc = MainPC.parked →
        (idle_run think wakes n c).m.searching = false) := by
  refine ⟨?_, ?_, ?_⟩
  · intro hpc hexit n
    refine ⟨(idle_run_returned think wakes c hpc hexit n).1, ?_⟩
    cases n with
    | zero =>
      show c.pc ≠ MainPC.think
      rw [hpc]
      decide
    | succ n =>
      rw [(idle_run_returned think wakes c hpc hexit n).1]
      decide
  · intro hpc hth hexit
    obtain ⟨pc, m⟩ := c
    simp only at hpc hth hexit
    subst hpc
    have h1 : idle_run think wakes 1 ⟨MainPC.woken, m⟩ =
        ⟨MainPC.think, { m with searching := true }⟩ := by
      simp [idle_run, idle_step, hexit]
    have h2 : idle_run think wakes 2 ⟨MainPC.woken, m⟩ =
        ⟨MainPC.afterThink, think { m with searching := true }⟩ := by
      show idle_step think (wakes 1) (idle_run think wakes 1 ⟨MainPC.woken, m⟩) = _
      rw [h1]
      rfl
    have h3 : idle_run think wakes 3 ⟨MainPC.woken, m⟩ =
        ⟨MainPC.top, { think { m with searching := true } with searching := false }⟩ := by
      show idle_step think (wakes 2) (idle_run think wakes 2 ⟨MainPC.woken, m⟩) = _
      rw [h2]
      rfl
    have h4 : idle_run think wakes 4 ⟨MainPC.woken, m⟩ =
        ⟨MainPC.test,
          { ({ think { m with searching := true } with searching := false } : MainThread) with
            thinking := false }⟩ := by
      show idle_step think (wakes 3) (idle_run think wakes 3 ⟨MainPC.woken, m⟩) = _
      rw [h3]
      rfl
    have h5 : idle_run think wakes 5 ⟨MainPC.woken, m⟩ =
        idle_step think (wakes 4) (idle_run think wakes 4 ⟨MainPC.woken, m⟩) := rfl
    refine ⟨by rw [h1], by rw [h1], by rw [h1], by rw [h2], by rw [h2], by rw [h3],
      by rw [h4], by rw [h4], by rw [h4], ?_⟩
    rw [h5, h4]
    simp only [idle_step]
    split
    · intro _
      exact ⟨rfl, rfl⟩
    · intro h
      cases h
  · intro hpc hs hwake n hparked
    have hinv : main_inv c := by
      obtain ⟨pc, m⟩ := c
      simp only at hpc hs
      subst hpc
      exact hs
    have := main_inv_run think wakes hwake c hinv n
    generalize idle_run think wakes n c = d at this hparked
    obtain ⟨pc, m⟩ := d
    simp only at hparked
    subst hparked
    exact this


/-! ## Instances of the pool theorems on the example states -/

/-- An instance of `exit_joins_all` on a pool of three threads with a timer. -/
theorem exit_joins_all_witness :
    timedWorld.timer = some { run := true } ∧
    ∃ w1, timedWorld.exit = some w1 ∧
      w1.joined =
        timedWorld.joined ++ Joined.timer { ({ run := true } : TimerThread) with exit := true } ::
          (List.range timedWorld.size).map
            (fun p => Joined.worker { timedWorld.threads p with exit := true }) ∧
      w1.timer = some { ({ run := true } : TimerThread) with exit := true } ∧
      (∀ p, p < timedWorld.size →
        w1.threads p = { timedWorld.threads p with exit := true }) ∧
      Joined.timer { ({ run := true } : TimerThread) with exit := true } ∈ w1.joined ∧
      (∀ p, p < timedWorld.size → Joined.worker (w1.threads p) ∈ w1.joined) :=
  ⟨rfl, exit_joins_all timedWorld { run := true } rfl⟩

/-- A pool without a timer: `exit` has no defined result. -/
theorem exit_without_timer : exWorld.exit = none := rfl

/-- An instance of `start_thinking_resets` on a state with old signals. -/
theorem start_thinking_resets_witness :
    wait_for_think_finished id exSearchState = some exSearchState ∧
    ∃ s2 st, start_thinking exLegal 1000 id exSearchState { nodes := 5 } exLimits (some 3)
        = some (s2, st) ∧
      s2.Signals.stop = false ∧ s2.Signals.stopOnPonderhit = false ∧
      s2.Signals.failedLowAtRoot = false ∧ s2.Signals.firstRootMove = false ∧
      s2.RootPos = { nodes := 5 } ∧ s2.Limits = exLimits ∧ s2.main.thinking = true :=
  ⟨rfl, start_thinking_resets exLegal 1000 id exSearchState exSearchState { nodes := 5 }
    exLimits (some 3) rfl⟩

/-- An instance of `start_thinking_root_moves` with the example limits. -/
theorem start_thinking_root_moves_witness :
    wait_for_think_finished id exSearchState = some exSearchState ∧
    ∃ s2 st, start_thinking exLegal 1000 id exSearchState { nodes := 5 } exLimits none
        = some (s2, st) ∧
      s2.RootMoves =
        ((exLegal { nodes := 5 }).filter
          (fun m => decide (exLimits.searchmoves = [] ∨ m ∈ exLimits.searchmoves))).map
          RootMove.mk ∧
      (exLimits.searchmoves = [] → s2.RootMoves = (exLegal { nodes := 5 }).map RootMove.mk) ∧
      (∀ rm, rm ∈ s2.RootMoves → rm.move ∈ exLegal { nodes := 5 }) ∧
      (∀ m, m ∈ exLimits.searchmoves →
        List.count (RootMove.mk m) s2.RootMoves = List.count m (exLegal { nodes := 5 })) ∧
      ((exLegal { nodes := 5 }).Nodup → s2.RootMoves.Nodup) ∧
      (exLimits.searchmoves ≠ [] →
        (∀ m, m ∈ exLimits.searchmoves → m ∉ exLegal { nodes := 5 }) →
        s2.RootMoves = []) :=
  ⟨rfl, start_thinking_root_moves exLegal 1000 id exSearchState exSearchState { nodes := 5 }
    exLimits none rfl⟩

/-- The example call of `start_thinking`: of the legal moves 11, 12, 13, 14 and
the listed moves 13, 50, 11, 13 the root moves are 11 and 13, in generation
order, and the old root move 99 is gone. -/
theorem start_thinking_example :
    (start_thinking exLegal 1000 id exSearchState { nodes := 5 } exLimits none).map
      (fun r => (r.1.RootMoves, r.1.Signals, r.1.main.thinking, r.1.SearchTime)) =
    some ([RootMove.mk 11, RootMove.mk 13], {}, true, 1000) := by
  decide

/-- The lock operations of the example call of `split`, which recruits
thread 1. -/
theorem split_lock_ops_example :
    split_lock_ops false exWorld 0 exArgs =
      some [LockOp.lock Mutex.pool, LockOp.lock (Mutex.sp ⟨0, 0⟩),
        LockOp.lock (Mutex.thread 1), LockOp.unlock (Mutex.thread 1),
        LockOp.unlock (Mutex.sp ⟨0, 0⟩), LockOp.unlock Mutex.pool,
        LockOp.lock Mutex.pool, LockOp.lock (Mutex.sp ⟨0, 0⟩),
        LockOp.unlock (Mutex.sp ⟨0, 0⟩), LockOp.unlock Mutex.pool] := by
  decide

/-- The lock order check rejects a split point mutex taken without the pool
mutex, and a pool mutex released before the split point mutex. -/
theorem lock_order_ok_rejects :
    lock_order_ok false false [LockOp.lock (Mutex.sp ⟨0, 0⟩)] = false ∧
    lock_order_ok false false
      [LockOp.lock Mutex.pool, LockOp.lock (Mutex.sp ⟨0, 0⟩), LockOp.unlock Mutex.pool]
      = false := by
  decide


/-! ## The recruitment loop: termination and the set of recruits -/

theorem recruit_loop_fuel (self : Nat) (r : SPRef) :
    ∀ (fuel : Nat) (w w1 : World) (l : List Nat),
      recruit_loop self r fuel w = some (w1, l) →
      ∀ fuel2, l.length ≤ fuel2 → recruit_loop self r fuel2 w = some (w1, l) := by
  intro fuel
  induction fuel with
  | zero =>
    intro w w1 l h fuel2 _
    simp only [recruit_loop] at h
    split at h
    · rename_i hnone
      cases h
      cases fuel2 <;> simp [recruit_loop, hnone]
    · cases h
  | succ fuel ih =>
    intro w w1 l h fuel2 hlen
    simp only [recruit_loop] at h
    split at h
    · rename_i hnone
      cases h
      cases fuel2 <;> simp [recruit_loop, hnone]
    · rename_i slave hs
      split at h
      · cases h
      · rename_i w2 l2 h2
        simp only [Option.some.injEq, Prod.mk.injEq] at h
        obtain ⟨hw, hl⟩ := h
        subst hw
        subst hl
        cases fuel2 with
        | zero => simp at hlen
        | succ fuel2 =>
          have := ih _ _ _ h2 fuel2 (by simpa using hlen)
          simp [recruit_loop, hs, this]

theorem available_slave_none_iff (w : World) (m : Thread) :
    w.available_slave m = none ↔
      ∀ k, k < w.size → (w.threads k).available_to m = false := by
  rw [World.available_slave, available_slave_from_none]
  constructor
  · intro h k hk
    exact h k (Nat.zero_le _) (by omega)
  · intro h k _ hk
    exact h k (by omega)

theorem length_le_of_nodup_lt (l : List Nat) (n self : Nat) (hnd : l.Nodup)
    (hlt : ∀ p, p ∈ l → p < n) (hself : self ∉ l) (hin : self < n) :
    l.length ≤ n - 1 := by
  have hsub : l.toFinset ⊆ (Finset.range n).erase self := by
    intro p hp
    rw [List.mem_toFinset] at hp
    rw [Finset.mem_erase, Finset.mem_range]
    exact ⟨fun h => hself (h ▸ hp), hlt p hp⟩
  have hcard := Finset.card_le_card hsub
  rw [List.toFinset_card_of_nodup hnd, Finset.card_erase_of_mem (Finset.mem_range.2 hin),
    Finset.card_range] at hcard
  exact hcard

/-- C24. For a master of the pool that is searching, the recruitment loop of
non-Fake `split` ends within `size - 1` iterations. It recruits no thread twice
and never the master; it recruits exactly the threads of the pool that were
available to the master when the loop started; and when it ends no thread of
the pool is available to the master. -/
theorem recruit_exactly_available (w : World) (self : Nat) (a : SplitArgs)
    (hs : (w.threads self).searching = true) (hin : self < w.size) :
    ∃ w1 l, split_enter false w self a = some (w1, l) ∧
      recruit_loop self (split_slot w self) (w.size - 1)
        (split_setup (split_init w self a) self (split_slot w self)) = some (w1, l) ∧
      l.length ≤ w.size - 1 ∧
      l.Nodup ∧
      self ∉ l ∧
      (∀ p, p ∈ l ↔
        (p < w.size ∧
          ((split_setup (split_init w self a) self (split_slot w self)).threads p).available_to
            ((split_setup (split_init w self a) self (split_slot w self)).threads self) = true)) ∧
      (∀ p, p < w.size → (w1.threads p).available_to (w1.threads self) = false) := by
  obtain ⟨w1, l, h1, inv⟩ := split_enter_recruit w self a
  have hms : ((split_setup (split_init w self a) self (split_slot w self)).threads
      self).searching = true := by
    rw [split_setup_searching]; exact hs
  have hnot : self ∉ l := by
    intro hmem
    have := (inv.recruited self hmem).2.1
    rw [hms] at this
    cases this
  have hlt : ∀ p, p ∈ l → p < w.size := fun p hp => (inv.recruited p hp).1
  have hlen : l.length ≤ w.size - 1 := length_le_of_nodup_lt l w.size self inv.nodup hlt hnot hin
  have hloop : recruit_loop self (split_slot w self) w.size
      (split_setup (split_init w self a) self (split_slot w self)) = some (w1, l) := by
    simpa [split_enter, split_recruit] using h1
  have hdone := (available_slave_none_iff w1 (w1.threads self)).1 inv.done
  have hsz : w1.size = w.size := inv.size_eq
  refine ⟨w1, l, h1, recruit_loop_fuel _ _ _ _ _ _ hloop _ hlen, hlen, inv.nodup, hnot, ?_, ?_⟩
  · intro p
    constructor
    · intro hp
      have hne : p ≠ self := fun e => hnot (e ▸ hp)
      exact ⟨hlt p hp, inv.available p hp hne⟩
    · rintro ⟨hp, hav⟩
      by_contra hmem
      have hne : p ≠ self := by
        intro e
        subst e
        have := available_to_searching _ _ hav
        rw [hms] at this
        cases this
      have hstill : (w1.threads p).available_to (w1.threads self) = true := by
        rw [← hav]
        apply available_to_congr
        · exact (inv.frame p hmem).1
        · exact inv.spsize_eq p
        · exact inv.splitPoints_eq p hne
        · exact inv.idx_eq self
      have := hdone p (by rw [hsz]; exact hp)
      rw [hstill] at this
      cases this
  · intro p hp
    exact hdone p (by rw [hsz]; exact hp)

/-! ## `read_uci_options` and `init` -/

theorem read_uci_options_spec (ONE_PLY opt : Int) (n : Nat) (w : World) :
    ∃ w1, read_uci_options ONE_PLY opt n w = some w1 ∧
      w1.size = n ∧
      (∀ i, i < w.size → i < n → w1.threads i = w.threads i) ∧
      (∀ i, w.size ≤ i → i < n → w1.threads i = { idx := i }) ∧
      w1.minimumSplitDepth =
        (if opt * ONE_PLY = 0 then (if n < 8 then 4 * ONE_PLY else 7 * ONE_PLY)
         else opt * ONE_PLY) := by
  obtain ⟨w2, g1, g2, g3, g4, _, g6⟩ := grow_loop_spec n (w.size + n)
    { w with
      minimumSplitDepth :=
        if opt * ONE_PLY = 0 then (if n < 8 then 4 * ONE_PLY else 7 * ONE_PLY)
        else opt * ONE_PLY } (by simp only []; omega)
  obtain ⟨w1, s1, s2, s3, _, s5⟩ := shrink_loop_spec n (w.size + n) w2
    (by rw [g2]; simp only []; omega)
  simp only [] at g2 g3 g4 g6
  refine ⟨w1, by simp only [read_uci_options, g1, s1], by rw [s2, g2]; omega, ?_, ?_, ?_⟩
  · intro i hi hn
    rw [s3 i hn, g3 i hi]
  · intro i hi hn
    rw [s3 i hn, g4 i hi hn]
  · rw [s5, g6]

theorem idx_inv_read_uci_options (ONE_PLY opt : Int) (n : Nat) (w : World)
    (h : idx_inv w) :
    ∃ w1, read_uci_options ONE_PLY opt n w = some w1 ∧ w1.size = n ∧ idx_inv w1 := by
  obtain ⟨w1, h1, h2, h3, h4, _⟩ := read_uci_options_spec ONE_PLY opt n w
  refine ⟨w1, h1, h2, ?_⟩
  intro i hi
  rw [h2] at hi
  by_cases hlt : i < w.size
  · rw [h3 i hlt hi]
    exact h i hlt
  · rw [h4 i (by omega) hi]

theorem idx_inv_resize_calls (ONE_PLY : Int) :
    ∀ (calls : List (Int × Nat)) (w : World), idx_inv w → 0 < w.size →
      (∀ c, c ∈ calls → 1 ≤ c.2) →
      ∃ w1, resize_calls ONE_PLY calls w = some w1 ∧ idx_inv w1 ∧ 0 < w1.size := by
  intro calls
  induction calls with
  | nil => intro w h hpos _; exact ⟨w, rfl, h, hpos⟩
  | cons c rest ih =>
    intro w h _ hc
    obtain ⟨w1, h1, h2, h3⟩ := idx_inv_read_uci_options ONE_PLY c.1 c.2 w h
    have hc1 : 1 ≤ c.2 := hc c (List.mem_cons_self _ _)
    obtain ⟨w2, k1, k2, k3⟩ := ih w1 h3 (by omega)
      (fun d hd => hc d (List.mem_cons_of_mem _ hd))
    exact ⟨w2, by simp only [resize_calls, h1, k1], k2, k3⟩

/-- C25. From a pool with an empty vector, `init` and then any sequence of
`read_uci_options` calls, each for at least one thread, all return, and in the
state they reach the thread at position `i` of the pool has idx `i`; so the idx
values of the pool are pairwise distinct and the main thread, at position 0,
has idx 0. -/
theorem pool_idx_is_position (ONE_PLY opt : Int) (n : Nat) (calls : List (Int × Nat))
    (w0 : World) (h0 : w0.size = 0) (hn : 1 ≤ n) (hcalls : ∀ c, c ∈ calls → 1 ≤ c.2) :
    ∃ w1 w, init ONE_PLY opt n w0 = some w1 ∧ resize_calls ONE_PLY calls w1 = some w ∧
      (∀ i, i < w.size → (w.threads i).idx = i) ∧
      (∀ i j, i < w.size → j < w.size → (w.threads i).idx = (w.threads j).idx → i = j) ∧
      0 < w.size ∧ (w.threads 0).idx = 0 := by
  have hinv0 : idx_inv (({ w0 with timer := some {} } : World).push_back
      (new_thread { w0 with timer := some {} })) := by
    intro i hi
    simp only [World.push_back, h0] at hi
    have hi0 : i = 0 := by omega
    subst hi0
    simp [World.push_back, new_thread, h0]
  obtain ⟨w1, h1, h2, h3⟩ := idx_inv_read_uci_options ONE_PLY opt n _ hinv0
  obtain ⟨w, k1, k2, k3⟩ := idx_inv_resize_calls ONE_PLY calls w1 h3 (by omega) hcalls
  refine ⟨w1, w, by simp only [init, h1], k1, k2, ?_, k3, k2 0 k3⟩
  intro i j hi hj hij
  rw [k2 i hi, k2 j hj] at hij
  exact hij

/-- C26. A call of `read_uci_options` returns with minimumSplitDepth equal to
the option "Min Split Depth" times ONE_PLY when this product is not zero; when
it is zero, with 4 * ONE_PLY if fewer than 8 threads are requested and with
7 * ONE_PLY otherwise. So for a positive ONE_PLY and a non-negative option
minimumSplitDepth is positive after the call. -/
theorem read_uci_options_minimumSplitDepth (ONE_PLY opt : Int) (n : Nat) (w : World) :
    ∃ w1, read_uci_options ONE_PLY opt n w = some w1 ∧
      (opt * ONE_PLY ≠ 0 → w1.minimumSplitDepth = opt * ONE_PLY) ∧
      (opt * ONE_PLY = 0 → n < 8 → w1.minimumSplitDepth = 4 * ONE_PLY) ∧
      (opt * ONE_PLY = 0 → 8 ≤ n → w1.minimumSplitDepth = 7 * ONE_PLY) ∧
      (0 < ONE_PLY → 0 ≤ opt → 0 < w1.minimumSplitDepth) := by
  obtain ⟨w1, h1, _, _, _, h5⟩ := read_uci_options_spec ONE_PLY opt n w
  refine ⟨w1, h1, ?_, ?_, ?_, ?_⟩
  · intro h; rw [h5, if_neg h]
  · intro h hn; rw [h5, if_pos h, if_pos hn]
  · intro h hn; rw [h5, if_pos h, if_neg (by omega)]
  · intro hp ho
    rw [h5]
    by_cases h : opt * ONE_PLY = 0
    · rw [if_pos h]
      split
      · show (0 : Int) < 4 * ONE_PLY
        omega
      · show (0 : Int) < 7 * ONE_PLY
        omega
    · rw [if_neg h]
      have hnn : 0 ≤ opt * ONE_PLY := Int.mul_nonneg ho (le_of_lt hp)
      exact lt_of_le_of_ne hnn (Ne.symm h)

/-! ## Fake mode and the size of the pool -/

theorem split_sp_congr (w v : World) (self : Nat) (a : SplitArgs)
    (h : w.threads self = v.threads self) : split_sp w self a = split_sp v self a := by
  unfold split_sp split_init
  rw [setSP_sp_same, setSP_sp_same]
  simp only [World.sp, split_slot, h]

/-- What `split<true>` contributes to the serial equivalence of the search: in
Fake mode the state in which the master enters its idle loop, and so the values
that `split` hands back, depend on the master and the positions only, not on the
size of the pool or on the other threads, as long as the idle loop itself
depends on the master and the positions only. -/
theorem split_fake_local (idle_loop : Nat → World → World) (w v : World) (self : Nat)
    (a : SplitArgs) (hth : w.threads self = v.threads self)
    (hpos : w.positions = v.positions)
    (hidle : ∀ x y : World, x.threads self = y.threads self → x.positions = y.positions →
      (idle_loop self x).threads self = (idle_loop self y).threads self ∧
      (idle_loop self x).positions = (idle_loop self y).positions) :
    ∃ r1 r2, split true idle_loop w self a = some r1 ∧
      split true idle_loop v self a = some r2 ∧
      r1.bestValue = r2.bestValue ∧ r1.bestMove = r2.bestMove ∧
      (r1.world.positions a.pos).nodes = (r2.world.positions a.pos).nodes ∧
      (r1.world.threads self).splitPointsSize = (r2.world.threads self).splitPointsSize ∧
      (r1.world.threads self).activeSplitPoint = (r2.world.threads self).activeSplitPoint := by
  have hslot : split_slot w self = split_slot v self := by
    simp only [split_slot, hth]
  have henter : (split_setup (split_init w self a) self (split_slot w self)).threads self =
      (split_setup (split_init v self a) self (split_slot v self)).threads self := by
    rw [split_setup_threads_self, split_setup_threads_self, split_sp_congr w v self a hth,
      hslot, hth]
  obtain ⟨i1, i2⟩ := hidle
    (split_setup (split_init w self a) self (split_slot w self))
    (split_setup (split_init v self a) self (split_slot v self)) henter
    (by rw [split_setup_positions, split_setup_positions, hpos])
  obtain ⟨a1, a2, _, _, a5, a6, a7⟩ := split_finish_spec
    (idle_loop self (split_setup (split_init w self a) self (split_slot w self))) self
    (w.threads self).splitPointsSize a
  obtain ⟨b1, b2, _, _, b5, b6, b7⟩ := split_finish_spec
    (idle_loop self (split_setup (split_init v self a) self (split_slot v self))) self
    (v.threads self).splitPointsSize a
  have hsp : ∀ slot : Int,
      (idle_loop self (split_setup (split_init w self a) self (split_slot w self))).sp
        ⟨self, slot⟩ =
      (idle_loop self (split_setup (split_init v self a) self (split_slot v self))).sp
        ⟨self, slot⟩ := by
    intro slot
    show ((idle_loop self _).threads self).splitPoints slot =
      ((idle_loop self _).threads self).splitPoints slot
    rw [i1]
  have e1 : split true idle_loop w self a =
      some (split_finish
        (idle_loop self (split_setup (split_init w self a) self (split_slot w self))) self
        (split_slot w self) a) := by
    simp only [split, split_enter_fake]
  have e2 : split true idle_loop v self a =
      some (split_finish
        (idle_loop self (split_setup (split_init v self a) self (split_slot v self))) self
        (split_slot v self) a) := by
    simp only [split, split_enter_fake]
  refine ⟨_, _, e1, e2, ?_, ?_, ?_, ?_, ?_⟩
  · show (split_finish _ self ⟨self, (w.threads self).splitPointsSize⟩ a).bestValue =
      (split_finish _ self ⟨self, (v.threads self).splitPointsSize⟩ a).bestValue
    rw [a6, b6, hsp, hth]
  · show (split_finish _ self ⟨self, (w.threads self).splitPointsSize⟩ a).bestMove =
      (split_finish _ self ⟨self, (v.threads self).splitPointsSize⟩ a).bestMove
    rw [a7, b7, hsp, hth]
  · show ((split_finish _ self ⟨self, (w.threads self).splitPointsSize⟩ a).world.positions
        a.pos).nodes =
      ((split_finish _ self ⟨self, (v.threads self).splitPointsSize⟩ a).world.positions
        a.pos).nodes
    rw [a5, b5, hsp, hth, i2]
  · show ((split_finish _ self ⟨self, (w.threads self).splitPointsSize⟩ a).world.threads
        self).splitPointsSize =
      ((split_finish _ self ⟨self, (v.threads self).splitPointsSize⟩ a).world.threads
        self).splitPointsSize
    rw [a1, b1, i1]
  · show ((split_finish _ self ⟨self, (w.threads self).splitPointsSize⟩ a).world.threads
        self).activeSplitPoint =
      ((split_finish _ self ⟨self, (v.threads self).splitPointsSize⟩ a).world.threads
        self).activeSplitPoint
    rw [a2, b2, hsp, hth]

/-! ## `split` when no slave is available -/

/-- An instance of `recruit_exactly_available` on the example pool, whose master
is thread 0. -/
theorem recruit_exactly_available_witness :
    (exWorld.threads 0).searching = true ∧ 0 < exWorld.size ∧
    ∃ w1 l, split_enter false exWorld 0 exArgs = some (w1, l) ∧
      recruit_loop 0 (split_slot exWorld 0) (exWorld.size - 1)
        (split_setup (split_init exWorld 0 exArgs) 0 (split_slot exWorld 0)) = some (w1, l) ∧
      l.length ≤ exWorld.size - 1 ∧
      l.Nodup ∧
      0 ∉ l ∧
      (∀ p, p ∈ l ↔
        (p < exWorld.size ∧
          ((split_setup (split_init exWorld 0 exArgs) 0 (split_slot exWorld 0)).threads
              p).available_to
            ((split_setup (split_init exWorld 0 exArgs) 0 (split_slot exWorld 0)).threads 0)
            = true)) ∧
      (∀ p, p < exWorld.size → (w1.threads p).available_to (w1.threads 0) = false) :=
  ⟨by decide, by decide, recruit_exactly_available exWorld 0 exArgs (by decide) (by decide)⟩

/-- An instance of `pool_idx_is_position`: `init` for three threads, then a
resize to five and a resize to two. -/
theorem pool_idx_is_position_witness :
    ({} : World).size = 0 ∧ 1 ≤ 3 ∧
    (∀ c, c ∈ [((0 : Int), 5), (3, 2)] → 1 ≤ c.2) ∧
    ∃ w1 w, init 2 0 3 {} = some w1 ∧ resize_calls 2 [(0, 5), (3, 2)] w1 = some w ∧
      (∀ i, i < w.size → (w.threads i).idx = i) ∧
      (∀ i j, i < w.size → j < w.size → (w.threads i).idx = (w.threads j).idx → i = j) ∧
      0 < w.size ∧ (w.threads 0).idx = 0 :=
  ⟨rfl, by decide, by decide,
    pool_idx_is_position 2 0 3 [(0, 5), (3, 2)] {} rfl (by decide) (by decide)⟩

/-- The example run of `init` and two resizes: the pool ends with two threads of
idx 0 and 1, three joined workers, and minimumSplitDepth 3 * 2. -/
theorem pool_run_example :
    ((init 2 0 3 {}).bind (resize_calls 2 [(0, 5), (3, 2)])).map
      (fun w => (w.size, (w.threads 0).idx, (w.threads 1).idx, w.joined.length,
        w.minimumSplitDepth, w.timer.isSome)) =
    some (2, 0, 1, 3, 6, true) ∧
    (init 2 0 3 {}).map (fun w => (w.size, w.minimumSplitDepth)) = some (3, 8) ∧
    (init 2 0 8 {}).map (fun w => (w.size, w.minimumSplitDepth)) = some (8, 14) := by
  decide

end Stockfish

namespace Maverick

/-! ## Maverick 0.5: colour symmetry of the evaluation -/

/-- C18. The score of `calc_evaluation` is
`(1 - 2*to_move) * ((mg*p + eg*(256 - p)) / 256)` with the truncating division,
and it is colour-symmetric: with Black to move and the accumulators `-mg`, `-eg`
it equals the score with White to move and the accumulators `mg`, `eg`, for the
same phase `p`. -/
theorem calc_evaluation_colour_symmetric (T : EvalTerms) (b bf : t_board)
    (e ef : t_chess_eval) (hw : b.to_move = 0) (hb : bf.to_move = 1)
    (hmg : (calc_terms T bf ef).middlegame = -(calc_terms T b e).middlegame)
    (heg : (calc_terms T bf ef).endgame = -(calc_terms T b e).endgame)
    (hp : (calc_terms T bf ef).game_phase = (calc_terms T b e).game_phase) :
    (calc_evaluation T b e).1 =
      (1 - 2 * b.to_move) *
        Int.tdiv ((calc_terms T b e).middlegame * (calc_terms T b e).game_phase
          + (calc_terms T b e).endgame * (256 - (calc_terms T b e).game_phase)) 256 ∧
    (calc_evaluation T bf ef).1 = (calc_evaluation T b e).1 ∧
    (calc_evaluation T bf ef).2.static_score = (calc_evaluation T b e).2.static_score := by
  have key : (calc_evaluation T bf ef).1 = (calc_evaluation T b e).1 := by
    simp only [calc_evaluation, hw, hb, hmg, heg, hp]
    have : -(calc_terms T b e).middlegame * (calc_terms T b e).game_phase
        + -(calc_terms T b e).endgame * (256 - (calc_terms T b e).game_phase)
        = -((calc_terms T b e).middlegame * (calc_terms T b e).game_phase
          + (calc_terms T b e).endgame * (256 - (calc_terms T b e).game_phase)) := by
      ring
    rw [this, Int.neg_tdiv]
    ring
  exact ⟨rfl, key, key⟩

/-! ## Maverick 0.5: mirrored endgame evaluators -/

theorem square_distance_flip (d : EvalData) (mirror : Nat → Nat) (s1 s2 : Nat)
    (h1 : s1 < 64) (h2 : s2 < 64)
    (hr : ∀ s, s < 64 → d.RANK (mirror s) = 7 - d.RANK s)
    (hc : ∀ s, s < 64 → d.COLUMN (mirror s) = d.COLUMN s) :
    square_distance d (mirror s2) (mirror s1) = square_distance d s1 s2 := by
  simp only [square_distance, hr s1 h1, hr s2 h2, hc s1 h1, hc s2 h2]
  have e1 : |7 - d.RANK s2 - (7 - d.RANK s1)| = |d.RANK s1 - d.RANK s2| := by
    congr 1
    ring
  have e2 : |d.COLUMN s2 - d.COLUMN s1| = |d.COLUMN s1 - d.COLUMN s2| := abs_sub_comm _ _
  rw [e1, e2]

theorem flip_board_fields (mirror : Nat → Nat) (b : t_board) :
    (flip_board mirror b).king_square WHITE = mirror (b.king_square BLACK) ∧
    (flip_board mirror b).king_square BLACK = mirror (b.king_square WHITE) ∧
    (flip_board mirror b).to_move = 1 - b.to_move :=
  ⟨rfl, rfl, rfl⟩

/-- C19. For the pairs QKvk/Kvqk, RKvk/Kvrk and BBKvk/Kvbbk, for all king squares
on the board and any side to move: the Black-side function on the colour-flipped
board sets the static_score that the White-side function sets on the board
itself, when `lone_king` is invariant under the vertical mirror of squares. -/
theorem lone_king_endgames_mirror (d : EvalData) (mirror : Nat → Nat) (b : t_board)
    (e ef : t_chess_eval)
    (hwk : b.king_square WHITE < 64) (hbk : b.king_square BLACK < 64)
    (hr : ∀ s, s < 64 → d.RANK (mirror s) = 7 - d.RANK s)
    (hc : ∀ s, s < 64 → d.COLUMN (mirror s) = d.COLUMN s)
    (hl : ∀ s, s < 64 → d.lone_king (mirror s) = d.lone_king s) :
    (known_endgame_Kvqk d (flip_board mirror b) ef).static_score
        = (known_endgame_QKvk d b e).static_score ∧
    (known_endgame_Kvrk d (flip_board mirror b) ef).static_score
        = (known_endgame_RKvk d b e).static_score ∧
    (known_endgame_Kvbbk d (flip_board mirror b) ef).static_score
        = (known_endgame_BBKvk d b e).static_score := by
  obtain ⟨f1, f2, f3⟩ := flip_board_fields mirror b
  have hd := square_distance_flip d mirror _ _ hwk hbk hr hc
  refine ⟨?_, ?_, ?_⟩
  · simp only [known_endgame_Kvqk, known_endgame_QKvk, f1, f2, f3, hd, hl _ hbk]
    ring
  · simp only [known_endgame_Kvrk, known_endgame_RKvk, f1, f2, f3, hd, hl _ hbk]
    ring
  · simp only [known_endgame_Kvbbk, known_endgame_BBKvk, f1, f2, f3, hd, hl _ hbk]
    ring

theorem krn_krb_flip (d : EvalData) (mirror : Nat → Nat) (b : t_board)
    (e ef : t_chess_eval)
    (hwk : b.king_square WHITE < 64) (hbk : b.king_square BLACK < 64)
    (hr : ∀ s, s < 64 → d.RANK (mirror s) = 7 - d.RANK s)
    (hc : ∀ s, s < 64 → d.COLUMN (mirror s) = d.COLUMN s)
    (hl : ∀ s, s < 64 → d.lone_king (mirror s) = d.lone_king s) :
    (known_endgame_Kvkrn d (flip_board mirror b) ef).static_score
        = (d.lone_king (b.king_square WHITE) + 1100
            - 10 * square_distance d (b.king_square WHITE) (b.king_square BLACK))
          * (1 - b.to_move * 2) ∧
    (known_endgame_KRNvk d b e).static_score
        = (d.lone_king (b.king_square BLACK) + 1100
            - 10 * square_distance d (b.king_square WHITE) (b.king_square BLACK))
          * (1 - b.to_move * 2) ∧
    (known_endgame_Kvkrb d (flip_board mirror b) ef).static_score
        = (known_endgame_Kvkrn d (flip_board mirror b) ef).static_score ∧
    (known_endgame_KRBvk d b e).static_score = (known_endgame_KRNvk d b e).static_score := by
  obtain ⟨f1, f2, f3⟩ := flip_board_fields mirror b
  have hd := square_distance_flip d mirror _ _ hwk hbk hr hc
  refine ⟨?_, rfl, rfl, rfl⟩
  simp only [known_endgame_Kvkrn, f1, f2, f3, hd, hl _ hwk]
  ring

/-- Under the assumptions of mirror invariance, `known_endgame_Kvkrn`
and `known_endgame_Kvkrb` on the colour-flipped board set the static_score of
`known_endgame_KRNvk` and `known_endgame_KRBvk` on the board itself only when
`lone_king` has the same value at the two king squares: they read the table at
the square of the black king, where the other Black-side evaluators read it at
the square of the white king. -/
theorem krn_krb_mirror_iff (d : EvalData) (mirror : Nat → Nat) (b : t_board)
    (e ef : t_chess_eval)
    (hwk : b.king_square WHITE < 64) (hbk : b.king_square BLACK < 64)
    (hr : ∀ s, s < 64 → d.RANK (mirror s) = 7 - d.RANK s)
    (hc : ∀ s, s < 64 → d.COLUMN (mirror s) = d.COLUMN s)
    (hl : ∀ s, s < 64 → d.lone_king (mirror s) = d.lone_king s) :
    ((known_endgame_Kvkrn d (flip_board mirror b) ef).static_score
        = (known_endgame_KRNvk d b e).static_score ↔
      d.lone_king (b.king_square WHITE) = d.lone_king (b.king_square BLACK)) ∧
    ((known_endgame_Kvkrb d (flip_board mirror b) ef).static_score
        = (known_endgame_KRBvk d b e).static_score ↔
      d.lone_king (b.king_square WHITE) = d.lone_king (b.king_square BLACK)) := by
  obtain ⟨h1, h2, h3, h4⟩ := krn_krb_flip d mirror b e ef hwk hbk hr hc hl
  have hne : (1 - b.to_move * 2) ≠ 0 := by omega
  have key : ((known_endgame_Kvkrn d (flip_board mirror b) ef).static_score
        = (known_endgame_KRNvk d b e).static_score ↔
      d.lone_king (b.king_square WHITE) = d.lone_king (b.king_square BLACK)) := by
    rw [h1, h2]
    constructor
    · intro h
      have h5 := mul_right_cancel₀ hne h
      linarith
    · intro h
      rw [h]
  refine ⟨key, ?_⟩
  rw [h3, h4]
  exact key

/-! ## Maverick 0.5: hash table round trip -/

theorem find_key_none (key : Nat) (c : List (Option t_hash_record))
    (h : find_key key c = none) :
    ∀ i e, c.get? i = some (some e) → e.key ≠ key := by
  induction c with
  | nil => intro i e hi; simp at hi
  | cons x rest ih =>
    intro i e hi
    cases x with
    | none =>
      simp only [find_key, Option.map_eq_none'] at h
      cases i with
      | zero => simp at hi
      | succ i => exact ih h i e (by simpa using hi)
    | some y =>
      simp only [find_key] at h
      by_cases hy : y.key = key
      · simp [hy] at h
      · rw [if_neg hy, Option.map_eq_none'] at h
        cases i with
        | zero =>
          simp only [List.get?_cons_zero, Option.some.injEq] at hi
          subst hi
          exact hy
        | succ i => exact ih h i e (by simpa using hi)

theorem find_key_some (key : Nat) (c : List (Option t_hash_record)) :
    ∀ j, find_key key c = some j →
      j < c.length ∧ ∀ i e, i < j → c.get? i = some (some e) → e.key ≠ key := by
  induction c with
  | nil => intro j h; simp [find_key] at h
  | cons x rest ih =>
    intro j h
    have hrest : ∀ j, (find_key key rest).map (· + 1) = some j →
        j < (x :: rest).length ∧
          ∀ i e, i < j → (∀ e, x = some e → e.key ≠ key) →
            (x :: rest).get? i = some (some e) → e.key ≠ key := by
      intro j hj
      obtain ⟨k, hk, rfl⟩ := Option.map_eq_some'.1 hj
      obtain ⟨h1, h2⟩ := ih k hk
      refine ⟨by simp only [List.length_cons]; omega, ?_⟩
      intro i e hi hx hget
      cases i with
      | zero =>
        simp only [List.get?_cons_zero, Option.some.injEq] at hget
        exact hx e hget
      | succ i => exact h2 i e (by omega) (by simpa using hget)
    cases x with
    | none =>
      simp only [find_key] at h
      obtain ⟨h1, h2⟩ := hrest j h
      exact ⟨h1, fun i e hi hget => h2 i e hi (fun e he => by cases he) hget⟩
    | some y =>
      simp only [find_key] at h
      by_cases hy : y.key = key
      · rw [if_pos hy] at h
        cases h
        exact ⟨by simp, fun i e hi => by omega⟩
      · rw [if_neg hy] at h
        obtain ⟨h1, h2⟩ := hrest j h
        refine ⟨h1, fun i e hi hget => h2 i e hi ?_ hget⟩
        intro e he
        cases he
        exact hy

theorem find_key_set (key : Nat) (e : t_hash_record) (he : e.key = key) :
    ∀ (c : List (Option t_hash_record)) (j : Nat), j < c.length →
      (∀ i x, i < j → c.get? i = some (some x) → x.key ≠ key) →
      find_key key (c.set j (some e)) = some j := by
  intro c
  induction c with
  | nil => intro j hj; simp at hj
  | cons x rest ih =>
    intro j hj hbefore
    cases j with
    | zero => simp [find_key, he]
    | succ j =>
      have hrec := ih j (by simpa using hj)
        (fun i y hi hget => hbefore (i + 1) y (by omega) (by simpa using hget))
      cases x with
      | none => simp [find_key, hrec]
      | some y =>
        have hy : y.key ≠ key := hbefore 0 y (by omega) (by simp)
        simp [find_key, hy, hrec]

theorem victim_lt (generation : Nat) :
    ∀ c : List (Option t_hash_record), c ≠ [] → victim generation c < c.length := by
  intro c
  induction c with
  | nil => intro h; exact absurd rfl h
  | cons x rest ih =>
    intro _
    cases rest with
    | nil => simp [victim]
    | cons y rest =>
      have := ih (by simp)
      simp only [victim]
      split
      · simp
      · simp only [List.length_cons] at this ⊢
        omega

/-- C17. In a table whose cluster for the key has at least one slot, storing an
entry for a key and probing the key at once gives back an entry with the key,
depth, score, bound and move that were stored. -/
theorem store_probe_roundtrip (t : HashTable) (k : Nat) (d : Int) (b : t_hash_bound)
    (s : Int) (m : Nat) (hcap : t.cluster (k % t.size) ≠ []) :
    ∃ e, probe (store t k d b s m) k = some e ∧
      e.key = k ∧ e.depth = d ∧ e.score = s ∧ e.bound = b ∧ e.move = m := by
  have hslot : ∃ j, j < (t.cluster (k % t.size)).length ∧
      (∀ i x, i < j → (t.cluster (k % t.size)).get? i = some (some x) → x.key ≠ k) ∧
      store_slot t.generation k (t.cluster (k % t.size)) = j := by
    unfold store_slot
    cases hf : find_key k (t.cluster (k % t.size)) with
    | none =>
      exact ⟨_, victim_lt _ _ hcap, fun i x _ hget => find_key_none k _ hf i x hget, rfl⟩
    | some j =>
      obtain ⟨h1, h2⟩ := find_key_some k _ j hf
      exact ⟨j, h1, h2, rfl⟩
  obtain ⟨j, hj, hbefore, hsel⟩ := hslot
  refine ⟨{ key := k, depth := d, score := s, bound := b, move := m,
            generation := t.generation }, ?_, rfl, rfl, rfl, rfl, rfl⟩
  have hfind := find_key_set k
    { key := k, depth := d, score := s, bound := b, move := m, generation := t.generation }
    rfl (t.cluster (k % t.size)) j hj hbefore
  have hstore : (store t k d b s m).cluster (k % t.size) =
      (t.cluster (k % t.size)).set j
        (some { key := k, depth := d, score := s, bound := b, move := m,
                generation := t.generation }) := by
    simp only [store, Function.update_same]
    rw [hsel]
  unfold probe
  simp only [show (store t k d b s m).size = t.size from rfl, hstore, hfind]
  simp [List.getD_eq_getElem?_getD, hj]


/-! ## Maverick 0.5: instances on the example data -/

/-- An instance of `store_probe_roundtrip`: key 5 stored in the example table,
whose cluster for the key holds an entry for key 9. -/
theorem store_probe_roundtrip_witness :
    exTable.cluster (5 % exTable.size) ≠ [] ∧
    ∃ e, probe (store exTable 5 7 t_hash_bound.HASH_LOWER 1 42) 5 = some e ∧
      e.key = 5 ∧ e.depth = 7 ∧ e.score = 1 ∧ e.bound = t_hash_bound.HASH_LOWER ∧ e.move = 42 :=
  ⟨by decide, store_probe_roundtrip exTable 5 7 t_hash_bound.HASH_LOWER 1 42 (by decide)⟩

/-- The example table after the store of key 5: the entry for key 9 is kept
beside the new entry. -/
theorem store_probe_example :
    probe (store exTable 5 7 t_hash_bound.HASH_LOWER 1 42) 5 =
      some { key := 5, depth := 7, score := 1, bound := t_hash_bound.HASH_LOWER, move := 42,
             generation := 2 } ∧
    (probe (store exTable 5 7 t_hash_bound.HASH_LOWER 1 42) 9).map (fun e => e.depth) = some 3 ∧
    probe exTable 5 = none := by
  decide

/-- An instance of `calc_evaluation_colour_symmetric` on the example board and
its colour flip. -/
theorem calc_evaluation_colour_symmetric_witness :
    exBoard.to_move = 0 ∧ (flip_board exMirror exBoard).to_move = 1 ∧
    (calc_terms exTerms (flip_board exMirror exBoard) {}).middlegame
      = -(calc_terms exTerms exBoard {}).middlegame ∧
    (calc_terms exTerms (flip_board exMirror exBoard) {}).endgame
      = -(calc_terms exTerms exBoard {}).endgame ∧
    (calc_terms exTerms (flip_board exMirror exBoard) {}).game_phase
      = (calc_terms exTerms exBoard {}).game_phase ∧
    ((calc_evaluation exTerms exBoard {}).1 =
      (1 - 2 * exBoard.to_move) *
        Int.tdiv ((calc_terms exTerms exBoard {}).middlegame
            * (calc_terms exTerms exBoard {}).game_phase
          + (calc_terms exTerms exBoard {}).endgame
            * (256 - (calc_terms exTerms exBoard {}).game_phase)) 256 ∧
    (calc_evaluation exTerms (flip_board exMirror exBoard) {}).1
      = (calc_evaluation exTerms exBoard {}).1 ∧
    (calc_evaluation exTerms (flip_board exMirror exBoard) {}).2.static_score
      = (calc_evaluation exTerms exBoard {}).2.static_score) :=
  ⟨by decide, by decide, by decide, by decide, by decide,
    calc_evaluation_colour_symmetric exTerms exBoard (flip_board exMirror exBoard) {} {}
      (by decide) (by decide) (by decide) (by decide) (by decide)⟩

/-- The score of the example board: the accumulators are -60 and -180, the
phase is 100, and the truncating division gives -133 (the flooring one would
give -134). -/
theorem calc_evaluation_example :
    (calc_evaluation exTerms exBoard {}).1 = -133 ∧
    (calc_evaluation exTerms (flip_board exMirror exBoard) {}).1 = -133 := by
  decide

/-- An instance of `lone_king_endgames_mirror` on the example data. -/
theorem lone_king_endgames_mirror_witness :
    exBoard.king_square WHITE < 64 ∧ exBoard.king_square BLACK < 64 ∧
    (∀ s, s < 64 → exData.RANK (exMirror s) = 7 - exData.RANK s) ∧
    (∀ s, s < 64 → exData.COLUMN (exMirror s) = exData.COLUMN s) ∧
    (∀ s, s < 64 → exData.lone_king (exMirror s) = exData.lone_king s) ∧
    ((known_endgame_Kvqk exData (flip_board exMirror exBoard) {}).static_score
        = (known_endgame_QKvk exData exBoard {}).static_score ∧
    (known_endgame_Kvrk exData (flip_board exMirror exBoard) {}).static_score
        = (known_endgame_RKvk exData exBoard {}).static_score ∧
    (known_endgame_Kvbbk exData (flip_board exMirror exBoard) {}).static_score
        = (known_endgame_BBKvk exData exBoard {}).static_score) :=
  ⟨by decide, by decide, by decide, by decide, by decide,
    lone_king_endgames_mirror exData exMirror exBoard {} {} (by decide) (by decide)
      (by decide) (by decide) (by decide)⟩

/-- C20 fails on the code. On the example data, which meet the assumptions of
the claim, with the white king on e4 and the black king on a8:
`known_endgame_KRNvk` and `known_endgame_KRBvk` set 1130 on the board, and
`known_endgame_Kvkrn` and `known_endgame_Kvkrb` set 1070 on the colour-flipped
board, while the pair RKvk/Kvrk agrees (830). -/
theorem krn_krb_not_mirror :
    (∀ s, s < 64 → exData.RANK (exMirror s) = 7 - exData.RANK s) ∧
    (∀ s, s < 64 → exData.COLUMN (exMirror s) = exData.COLUMN s) ∧
    (∀ s, s < 64 → exData.lone_king (exMirror s) = exData.lone_king s) ∧
    (known_endgame_KRNvk exData exBoard {}).static_score = 1130 ∧
    (known_endgame_Kvkrn exData (flip_board exMirror exBoard) {}).static_score = 1070 ∧
    (known_endgame_KRBvk exData exBoard {}).static_score = 1130 ∧
    (known_endgame_Kvkrb exData (flip_board exMirror exBoard) {}).static_score = 1070 ∧
    (known_endgame_RKvk exData exBoard {}).static_score = 830 ∧
    (known_endgame_Kvrk exData (flip_board exMirror exBoard) {}).static_score = 830 := by
  decide


/-! ## Maverick 0.5: the rook on the 7th rank -/

/-- C22 fails on the code. With a rook on the 7th rank and the enemy king on
the 8th, the endgame term is credited `MG_ROOK_ON_7TH` (10), not
`EG_ROOK_ON_7TH` (5); the middlegame term is credited `MG_ROOK_ON_7TH`. -/
theorem rook_on_7th_endgame_credit :
    (exRook.rooks &&& exRook.rank7 ≠ 0 ∧ exRook.enemy_king &&& exRook.rank8 ≠ 0) ∧
    (rook_on_7th exRook).1 = MG_ROOK_ON_7TH ∧
    (rook_on_7th exRook).2 = 10 ∧
    EG_ROOK_ON_7TH = 5 ∧
    (rook_on_7th exRook).2 ≠ EG_ROOK_ON_7TH := by
  decide

/-- For every input with a rook on the 7th rank and the enemy king on the 8th,
both terms are credited `MG_ROOK_ON_7TH`. -/
theorem rook_on_7th_credit (i : RookInput)
    (h : i.rooks &&& i.rank7 ≠ 0 ∧ i.enemy_king &&& i.rank8 ≠ 0) :
    rook_on_7th i = (MG_ROOK_ON_7TH, MG_ROOK_ON_7TH) := by
  simp only [rook_on_7th, if_pos h]

end Maverick
